import Mathlib

/-!
Verification of the CovertMark traffic-analysis and detection-strategy engine.

This file shallowly embeds the Python sources of the repository
(CovertMark/analytics/traffic.py and CovertMark/strategy/strategy.py,
entropy_dist.py, length_clustering.py, sdg.py) as Lean definitions and
proves or refutes the specified properties about them.

Conventions of the embedding:
* machine floats are modelled as exact rationals (ℚ); packet timestamps are
  rationals measured in seconds, converted to microseconds exactly as the
  source does (multiplication by 1000000 and Python int() truncation);
* Python exceptions (ValueError, NameError, IndexError, ZeroDivisionError,
  TypeError) are modelled with Except String;
* Python sets that the code only ever extends and tests membership of are
  modelled as duplicate-free lists kept in insertion order, dicts as
  association lists in insertion order;
* collaborators that live outside the analysed sources (the data.utils
  subnet objects, the analytics.entropy byte-entropy function, the
  clustering and classifier libraries) are passed in as parameters, since
  the claims quantify over their outputs.
-/

set_option maxRecDepth 2048

/-- Python int() truncation of a rational number: rounding toward zero,
mirroring int(float(...)) conversions in the source. -/
def pyInt (q : ℚ) : ℤ :=
  q.num.tdiv (q.den : ℤ)

/-- TCP flags of a parsed packet, as stored under tcp_info.flags by the
PCAP parser described in the data model. -/
structure TCPFlags where
  ack : Bool
  psh : Bool
  syn : Bool
  fin : Bool
  rst : Bool
  urg : Bool
deriving DecidableEq, Repr

/-- The tcp_info sub-record of a parsed packet: payload bytes, sequence
number and flags. -/
structure TCPInfo where
  payload : List ℕ
  seq : ℕ
  flags : TCPFlags
deriving DecidableEq, Repr

/-- A parsed packet record: time is fractional seconds since epoch as an
exact rational, src and dst are textual IPs, tcp_info is present for TCP
packets, tls_info and http_info are presence markers. -/
structure Packet where
  time : ℚ
  src : String
  dst : String
  proto : String
  len : ℕ
  tcp_info : Option TCPInfo
  tls_info : Option Unit
  http_info : Option Unit
deriving DecidableEq, Repr

/-- Convenience constructor for a plain TCP packet used by concrete
witnesses and counterexamples. -/
def mkTcpPacket (time : ℚ) (src dst : String) (payload : List ℕ) (seq : ℕ)
    (tls : Bool) : Packet :=
  { time := time, src := src, dst := dst, proto := "TCP",
    len := payload.length + 40,
    tcp_info := some { payload := payload, seq := seq,
                       flags := ⟨true, false, false, false, false, false⟩ },
    tls_info := if tls then some () else none,
    http_info := none }

/-! ### window_packets_fixed_size (analytics/traffic.py lines 104-126) -/

/-- The list comprehension of traffic.py line 121:
segments = [packets[i:i+window_size] for i in range(0, len(packets), window_size)];
successive slices of window_size packets, the last one possibly shorter. -/
def pySlices (n : ℕ) (l : List Packet) : List (List Packet) :=
  if h : n = 0 ∨ l = [] then [] else l.take n :: pySlices n (l.drop n)
termination_by l.length
decreasing_by
  push_neg at h
  have : l.length ≠ 0 := by
    intro hz
    exact h.2 (List.eq_nil_of_length_eq_zero hz)
  simp [List.length_drop]
  omega

/-- Lines 121-124 of traffic.py: slice the packets, then drop the final
slice if it is shorter than the window size. -/
def fullSlices (n : ℕ) (l : List Packet) : List (List Packet) :=
  let segments := pySlices n l
  if (segments.getLast?.getD []).length ≠ n then segments.dropLast else segments

/-- traffic.py window_packets_fixed_size: raises ValueError for a window
size below 1 (or a non-integer, which the ℤ argument rules out), returns []
when fewer packets than one window, otherwise the fixed-size slices with
the trailing remainder discarded. -/
def window_packets_fixed_size (packets : List Packet) (window_size : ℤ) :
    Except String (List (List Packet)) :=
  if window_size < 1 then .error "Invalid window size."
  else if packets.length < window_size.toNat then .ok []
  else .ok (fullSlices window_size.toNat packets)

theorem pySlices_nil (n : ℕ) : pySlices n [] = [] := by
  rw [pySlices]
  simp

theorem pySlices_cons (n : ℕ) (hn : 0 < n) (l : List Packet) (hl : l ≠ []) :
    pySlices n l = l.take n :: pySlices n (l.drop n) := by
  rw [pySlices]
  rw [dif_neg]
  push_neg
  exact ⟨by omega, hl⟩

theorem fullSlices_small (n : ℕ) (hn : 0 < n) (l : List Packet)
    (hl : l.length < n) : fullSlices n l = [] := by
  rcases eq_or_ne l [] with rfl | hne
  · simp [fullSlices, pySlices_nil]
  · have hslices : pySlices n l = [l.take n] := by
      rw [pySlices_cons n hn l hne]
      have : l.drop n = [] := by
        apply List.eq_nil_of_length_eq_zero
        simp [List.length_drop]
        omega
      rw [this, pySlices_nil]
    have htake : l.take n = l := List.take_of_length_le (by omega)
    simp only [fullSlices, hslices, htake]
    rw [if_pos]
    · rfl
    · simp only [List.getLast?_singleton, Option.getD_some]
      omega

theorem fullSlices_step (n : ℕ) (hn : 0 < n) (l : List Packet)
    (hl : n ≤ l.length) :
    fullSlices n l = l.take n :: fullSlices n (l.drop n) := by
  have hne : l ≠ [] := by
    intro h
    subst h
    simp at hl
    omega
  have hslices := pySlices_cons n hn l hne
  have hlen_take : (l.take n).length = n := by
    simp [List.length_take]
    omega
  simp only [fullSlices, hslices]
  rcases hrest : pySlices n (l.drop n) with _ | ⟨a, t⟩
  · -- single slice of exactly n packets; kept on the left, nil on the right
    simp only [List.getLast?_singleton, Option.getD_some, hlen_take]
    rw [if_neg (by simp), if_pos (by simpa using by omega)]
    simp
  · have hlast : (l.take n :: a :: t).getLast? = (a :: t).getLast? := by
      simp [List.getLast?_cons_cons]
    rw [hlast]
    by_cases hcond : ((a :: t).getLast?.getD []).length ≠ n
    · rw [if_pos hcond, if_pos hcond]
      simp [List.dropLast_cons_of_ne_nil]
    · rw [if_neg hcond, if_neg hcond]

theorem fullSlices_spec (n : ℕ) (hn : 0 < n) (l : List Packet) :
    (fullSlices n l).length = l.length / n ∧
    (∀ w ∈ fullSlices n l, w.length = n) ∧
    (fullSlices n l).flatten = l.take (l.length / n * n) := by
  suffices H : ∀ N (l : List Packet), l.length ≤ N →
      (fullSlices n l).length = l.length / n ∧
      (∀ w ∈ fullSlices n l, w.length = n) ∧
      (fullSlices n l).flatten = l.take (l.length / n * n) from
    H l.length l le_rfl
  intro N
  induction N with
  | zero =>
    intro l hl
    have hz : l.length = 0 := by omega
    rw [fullSlices_small n hn l (by omega)]
    refine ⟨by simp [Nat.div_eq_of_lt, hz, hn], by simp, ?_⟩
    simp [hz, Nat.div_eq_of_lt, hn]
  | succ N ih =>
    intro l hl
    by_cases hsmall : l.length < n
    · rw [fullSlices_small n hn l hsmall]
      refine ⟨?_, by simp, by simp [Nat.div_eq_of_lt hsmall]⟩
      simp [Nat.div_eq_of_lt hsmall]
    · push_neg at hsmall
      obtain ⟨hlen, hall, hflat⟩ := ih (l.drop n)
        (by simp [List.length_drop]; omega)
      rw [fullSlices_step n hn l hsmall]
      have hq : l.length / n = (l.drop n).length / n + 1 := by
        rw [List.length_drop]
        exact Nat.div_eq_sub_div hn hsmall
      refine ⟨by simp [hlen, hq], ?_, ?_⟩
      · intro w hw
        rcases List.mem_cons.mp hw with rfl | hw
        · simp [List.length_take]
          omega
        · exact hall w hw
      · simp only [List.flatten_cons, hflat, hq]
        rw [Nat.add_mul, one_mul, Nat.add_comm (_ * n) n]
        rw [List.take_add]

/-- C8: for every packet list, fixed-size windowing fails with an error for
every window size below 1, and for every window size n ≥ 1 it returns
exactly ⌊|P|/n⌋ windows of exactly n consecutive packets in input order
(their concatenation is the corresponding prefix of the input), with any
trailing remainder discarded. -/
theorem window_packets_fixed_size_spec (P : List Packet) (n : ℤ) :
    (n < 1 → window_packets_fixed_size P n = .error "Invalid window size.") ∧
    (1 ≤ n → ∃ segs, window_packets_fixed_size P n = .ok segs ∧
      segs.length = P.length / n.toNat ∧
      (∀ w ∈ segs, w.length = n.toNat) ∧
      segs.flatten = P.take (P.length / n.toNat * n.toNat)) := by
  constructor
  · intro hlt
    simp [window_packets_fixed_size, hlt]
  · intro hge
    have hn : ¬ n < 1 := by omega
    have hn0 : 0 < n.toNat := by omega
    by_cases hsmall : P.length < n.toNat
    · refine ⟨[], ?_, ?_, by simp, by simp [Nat.div_eq_of_lt hsmall]⟩
      · simp [window_packets_fixed_size, hn, hsmall]
      · simp [Nat.div_eq_of_lt hsmall]
    · obtain ⟨h1, h2, h3⟩ := fullSlices_spec n.toNat hn0 P
      exact ⟨fullSlices n.toNat P,
        by simp [window_packets_fixed_size, hn, hsmall], h1, h2, h3⟩

/-- Ten sample TCP packets used by concrete witnesses. -/
def samplePackets : List Packet :=
  (List.range 10).map
    (fun (i : ℕ) => mkTcpPacket (i : ℚ) "10.0.0.1" "10.0.0.2" [1, 2, 3] i false)

/-- Witness for C8 at the concrete scenario of the spec: ten packets with
window size three yield three windows, the last packet dropped. -/
theorem window_packets_fixed_size_spec_witness :
    (1 : ℤ) ≤ 3 ∧ ∃ segs, window_packets_fixed_size samplePackets 3 = .ok segs ∧
      segs.length = samplePackets.length / (3 : ℤ).toNat ∧
      (∀ w ∈ segs, w.length = (3 : ℤ).toNat) ∧
      segs.flatten = samplePackets.take
        (samplePackets.length / (3 : ℤ).toNat * (3 : ℤ).toNat) :=
  ⟨by decide, (window_packets_fixed_size_spec samplePackets 3).2 (by decide)⟩

/-! ### strategy.py DetectionStrategy.run and _parse_packets (lines 52-95
and 182-223): Python name resolution of the identifiers they reference. -/

/-- Names bound at module level in strategy.py: the imports of lines 1-5
(import analytics, data / import os / from abc import ABC, abstractmethod /
from datetime import date, datetime) and the class defined in the module.
The class attribute _MONGO_KEY of line 17 lives in the class namespace, not
in the module globals, and Python does not resolve bare names through the
enclosing class scope. -/
def strategyModuleGlobals : List String :=
  ["analytics", "data", "os", "ABC", "abstractmethod", "date", "datetime",
   "DetectionStrategy"]

/-- Local names of DetectionStrategy.run: its parameters (line 182-183).
No assignment statement in the body of run binds any further local name
before the line-201 call self._parse_packets(pt_filters, ...). -/
def dsRunLocals : List String :=
  ["self", "pt_ip_filter", "negative_ip_filter", "pt_split",
   "pt_split_ratio", "strategic_filter"]

/-- Local names of DetectionStrategy._parse_packets: its parameters
(line 52). Its body references the bare name _MONGO_KEY (line 75) without
ever assigning it, so that name is compiled as a global reference. -/
def dsParsePacketsLocals : List String :=
  ["self", "pt_filters", "negative_filters"]

/-- Python name resolution for a bare identifier inside a function body:
found among the function locals or the module globals (builtins hold
neither pt_filters nor _MONGO_KEY), otherwise a NameError is raised. -/
def resolveBareName (locals globals : List String) (n : String) :
    Except String Unit :=
  if n ∈ locals ∨ n ∈ globals then .ok ()
  else .error ("NameError: name " ++ n ++ " is not defined")

/-- DetectionStrategy.run (lines 182-223): after the two print calls, the
first evaluated expression is the argument pt_filters of the line-201 call
self._parse_packets(pt_filters, negative_filters=negative_ip_filter).
Everything after that evaluation (parsing, loading, splitting, the
positive and negative runs, and the final (TPR, FPR) tuple) is abstracted
as the continuation rest, which is only reached if the name resolves. -/
def detectionStrategyRun {R : Type} (rest : Except String R) :
    Except String R := do
  let _ ← resolveBareName dsRunLocals strategyModuleGlobals "pt_filters"
  rest

/-- DetectionStrategy._parse_packets (lines 52-95): its first statement is
assert(_MONGO_KEY.isalnum) (line 75), which evaluates the bare global name
_MONGO_KEY; the rest of the body is the continuation rest. -/
def detectionStrategyParsePackets {R : Type} (rest : Except String R) :
    Except String R := do
  let _ ← resolveBareName dsParsePacketsLocals strategyModuleGlobals
    "_MONGO_KEY"
  rest

/-- C10: every invocation of DetectionStrategy.run fails with an unhandled
NameError on the undefined identifier pt_filters, whatever the rest of the
lifecycle would have computed; the run therefore never returns the
(TPR, FPR) tuple. Moreover _parse_packets itself would fail on the bare
name _MONGO_KEY even if it were reached. -/
theorem detectionStrategyRun_always_name_error {R : Type}
    (rest restParse : Except String R) :
    detectionStrategyRun rest =
      .error "NameError: name pt_filters is not defined" ∧
    detectionStrategyParsePackets restParse =
      .error "NameError: name _MONGO_KEY is not defined" ∧
    ∀ v : R, detectionStrategyRun rest ≠ .ok v := by
  refine ⟨rfl, rfl, ?_⟩
  intro v h
  have herr : detectionStrategyRun rest =
      .error "NameError: name pt_filters is not defined" := rfl
  rw [herr] at h
  exact Except.noConfusion h

/-! ### window_packets_time_series (analytics/traffic.py lines 129-166) -/

/-- Line 144: sorted(packets, key=itemgetter('time')), a stable sort by
timestamp. -/
def sortByTime (l : List Packet) : List Packet :=
  l.mergeSort (fun a b => decide (a.time ≤ b.time))

/-- The timestamp of min(packets, key=itemgetter('time')) for a nonempty
packet list given as head and tail. -/
def minTimeOf (p0 : Packet) (rest : List Packet) : ℚ :=
  rest.foldl (fun a p => min a p.time) p0.time

/-- The timestamp of max(packets, key=itemgetter('time')) for a nonempty
packet list given as head and tail. -/
def maxTimeOf (p0 : Packet) (rest : List Packet) : ℚ :=
  rest.foldl (fun a p => max a p.time) p0.time

/-- min_time of line 148 for a packet list: int(min-time * 1000000); the
value for an empty list is irrelevant because min() raises on it first. -/
def listMinT : List Packet → ℤ
  | [] => 0
  | p0 :: rest => pyInt (minTimeOf p0 rest * 1000000)

/-- max_time of line 149 for a packet list. -/
def listMaxT : List Packet → ℤ
  | [] => 0
  | p0 :: rest => pyInt (maxTimeOf p0 rest * 1000000)

/-- The min_time that window_packets_time_series with sort=True subtracts
from every timestamp (line 161). -/
def wptsMinT (packets : List Packet) : ℤ :=
  listMinT (sortByTime packets)

/-- packet_t of line 161: float(packet['time']) * 1000000 - min_time. -/
def packetShift (minT : ℤ) (p : Packet) : ℚ :=
  p.time * 1000000 - (minT : ℚ)

/-- Membership of a shifted timestamp in the half-open window
ts[k] = [k*Δ, (k+1)*Δ) of line 155. -/
def inWindowB (Δ k : ℕ) (t : ℚ) : Bool :=
  decide (((k * Δ : ℕ) : ℚ) ≤ t) && decide (t < (((k + 1) * Δ : ℕ) : ℚ))

/-- The while loop of lines 162-163: advance c_segment while the packet is
not inside the current window and c_segment is below c_segment_max. -/
def advanceSeg (Δ : ℕ) (t : ℚ) (cmax c : ℕ) : ℕ :=
  if h : c < cmax ∧ inWindowB Δ c t = false then advanceSeg Δ t cmax (c + 1)
  else c
termination_by cmax - c
decreasing_by
  obtain ⟨h1, _⟩ := h
  omega

/-- The assignment loop of lines 160-164: append every packet to the
segment its (shifted) timestamp advances to. -/
def placeSegs (Δ cmax : ℕ) (minT : ℤ) :
    List Packet → ℕ → List (List Packet) → List (List Packet)
  | [], _, segs => segs
  | p :: rest, c, segs =>
    let c' := advanceSeg Δ (packetShift minT p) cmax c
    placeSegs Δ cmax minT rest c' (segs.set c' (segs.getD c' [] ++ [p]))

/-- The number of windows built at line 155: the length of
range(0, end_time, Δ), i.e. ⌈end_time / Δ⌉. -/
def numWindows (endT Δ : ℕ) : ℕ :=
  (endT + Δ - 1) / Δ

/-- The body of window_packets_time_series for a nonempty packet list:
min_time and max_time are the microsecond-truncated extremal timestamps
(lines 148-149), a duration below the window returns no windows
(lines 152-153), and otherwise every packet is assigned to one of
⌈duration/Δ⌉ windows by the advancing scan of lines 155-164. A zero range
step would make line 155 raise ValueError. -/
def wptsBody (p0 : Packet) (rest : List Packet) (Δ : ℕ) :
    Except String (List (List Packet)) :=
  if pyInt (maxTimeOf p0 rest * 1000000) -
      pyInt (minTimeOf p0 rest * 1000000) < (Δ : ℤ) then .ok []
  else if Δ = 0 then .error "ValueError: range() arg 3 must not be zero"
  else .ok (placeSegs Δ
    (numWindows (pyInt (maxTimeOf p0 rest * 1000000) -
      pyInt (minTimeOf p0 rest * 1000000)).toNat Δ - 1)
    (pyInt (minTimeOf p0 rest * 1000000)) (p0 :: rest) 0
    (List.replicate (numWindows (pyInt (maxTimeOf p0 rest * 1000000) -
      pyInt (minTimeOf p0 rest * 1000000)).toNat Δ) []))

/-- The body of window_packets_time_series after the optional sort of
line 144, operating on the (possibly sorted) packet list. min() on an
empty list raises ValueError. -/
def wptsCore : List Packet → ℕ → Except String (List (List Packet))
  | [], _ => .error "ValueError: min() arg is an empty sequence"
  | p0 :: rest, Δ => wptsBody p0 rest Δ

/-- traffic.py window_packets_time_series: segment packets into fixed
chronologically-sized windows of chronological_window microseconds. -/
def window_packets_time_series (packets : List Packet)
    (chronological_window : ℕ) (sort : Bool) :
    Except String (List (List Packet)) :=
  wptsCore (if sort then sortByTime packets else packets)
    chronological_window

theorem listGetD_set_ne {α : Type} (d : α) (l : List α) (i j : ℕ) (v : α)
    (h : i ≠ j) : (l.set i v).getD j d = l.getD j d := by
  simp [List.getD_eq_getElem?_getD, List.getElem?_set_ne h]

theorem listGetD_set_self {α : Type} (d : α) (l : List α) (i : ℕ) (v : α)
    (h : i < l.length) : (l.set i v).getD i d = v := by
  simp [List.getD_eq_getElem?_getD, List.getElem?_set_self h]

theorem advanceSeg_props (Δ : ℕ) (t : ℚ) (cmax : ℕ) : ∀ c,
    c ≤ advanceSeg Δ t cmax c ∧
    (c ≤ cmax → advanceSeg Δ t cmax c ≤ cmax) ∧
    (c ≤ cmax →
      (inWindowB Δ (advanceSeg Δ t cmax c) t = true ∨
       advanceSeg Δ t cmax c = cmax)) ∧
    (((c * Δ : ℕ) : ℚ) ≤ t → (((advanceSeg Δ t cmax c) * Δ : ℕ) : ℚ) ≤ t) := by
  suffices H : ∀ N c, cmax - c ≤ N →
      c ≤ advanceSeg Δ t cmax c ∧
      (c ≤ cmax → advanceSeg Δ t cmax c ≤ cmax) ∧
      (c ≤ cmax →
        (inWindowB Δ (advanceSeg Δ t cmax c) t = true ∨
         advanceSeg Δ t cmax c = cmax)) ∧
      (((c * Δ : ℕ) : ℚ) ≤ t →
        (((advanceSeg Δ t cmax c) * Δ : ℕ) : ℚ) ≤ t) from
    fun c => H (cmax - c) c le_rfl
  intro N
  induction N with
  | zero =>
    intro c hc
    have hstop : ¬ (c < cmax ∧ inWindowB Δ c t = false) := by
      intro hcon
      omega
    rw [advanceSeg, dif_neg hstop]
    exact ⟨le_rfl, fun h => h, fun h => by
      by_cases hin : inWindowB Δ c t = true
      · exact Or.inl hin
      · simp only [Bool.not_eq_true] at hin
        omega, fun h => h⟩
  | succ N ih =>
    intro c hc
    by_cases hgo : c < cmax ∧ inWindowB Δ c t = false
    · rw [advanceSeg, dif_pos hgo]
      obtain ⟨ih1, ih2, ih3, ih4⟩ := ih (c + 1) (by omega)
      refine ⟨by omega, fun _ => ih2 (by omega), fun _ => ih3 (by omega), ?_⟩
      intro hlow
      apply ih4
      -- the packet is not inside window c, so being at or past its start it
      -- lies at or past the start of window c+1
      have hwin := hgo.2
      simp only [inWindowB, Bool.and_eq_false_iff, decide_eq_false_iff_not,
        not_le, not_lt] at hwin
      rcases hwin with hlt | hge
      · exact absurd hlow (by exact_mod_cast not_le.mpr hlt)
      · exact hge
    · rw [advanceSeg, dif_neg hgo]
      push_neg at hgo
      refine ⟨le_rfl, fun h => h, fun h => ?_, fun h => h⟩
      by_cases hin : inWindowB Δ c t = true
      · exact Or.inl hin
      · simp only [Bool.not_eq_true] at hin
        right
        rcases Nat.lt_or_ge c cmax with hlt | hge2
        · exact absurd hin (hgo hlt)
        · omega

theorem flatten_set_append {α : Type} (segs : List (List α)) (c : ℕ) (p : α)
    (hc : c < segs.length) (hempty : ∀ j, c < j → segs.getD j [] = []) :
    (segs.set c (segs.getD c [] ++ [p])).flatten = segs.flatten ++ [p] := by
  induction segs generalizing c with
  | nil => simp at hc
  | cons s ss ih =>
    cases c with
    | zero =>
      have hss : ∀ x ∈ ss, x = [] := by
        intro x hx
        obtain ⟨j, hj, rfl⟩ := List.mem_iff_getElem.mp hx
        have := hempty (j + 1) (by omega)
        simpa [List.getD_eq_getElem?_getD, List.getElem?_eq_getElem hj]
          using this
      have hflat : ss.flatten = [] := List.flatten_eq_nil_iff.mpr hss
      simp [List.getD_eq_getElem?_getD, hflat]
    | succ k =>
      have hk : k < ss.length := by simpa using hc
      have hih := ih k hk (fun j hj => by
        have := hempty (j + 1) (by omega)
        simpa [List.getD_eq_getElem?_getD] using this)
      simp only [List.set_cons_succ, List.flatten_cons,
        List.getD_eq_getElem?_getD, List.getElem?_cons_succ] at hih ⊢
      rw [hih]
      simp

theorem placeSegs_length (Δ cmax : ℕ) (minT : ℤ) : ∀ (ps : List Packet)
    (c : ℕ) (segs : List (List Packet)),
    (placeSegs Δ cmax minT ps c segs).length = segs.length := by
  intro ps
  induction ps with
  | nil => intro c segs; rfl
  | cons p rest ih =>
    intro c segs
    rw [placeSegs, ih]
    simp

theorem placeSegs_flatten (Δ cmax : ℕ) (minT : ℤ) : ∀ (ps : List Packet)
    (c : ℕ) (segs : List (List Packet)), c ≤ cmax →
    segs.length = cmax + 1 → (∀ j, c < j → segs.getD j [] = []) →
    (placeSegs Δ cmax minT ps c segs).flatten = segs.flatten ++ ps := by
  intro ps
  induction ps with
  | nil => intro c segs _ _ _; simp [placeSegs]
  | cons p rest ih =>
    intro c segs hc hlen hempty
    rw [placeSegs]
    obtain ⟨hge, hle, _, _⟩ := advanceSeg_props Δ (packetShift minT p) cmax c
    have hle' := hle hc
    have hc'lt : advanceSeg Δ (packetShift minT p) cmax c < segs.length := by
      omega
    have hempty' : ∀ j, advanceSeg Δ (packetShift minT p) cmax c < j →
        segs.getD j [] = [] := fun j hj => hempty j (by omega)
    rw [ih _ _ (by omega) (by simp [hlen])
      (fun j hj => by
        rw [listGetD_set_ne _ _ _ _ _ (by omega)]
        exact hempty' j hj)]
    rw [flatten_set_append segs _ p hc'lt hempty']
    simp

/-- The per-window containment invariant maintained by the assignment
loop: every packet already placed in a window below the last lies inside
that window, and every packet placed in any window lies at or past the
start of that window. -/
def segsContained (Δ cmax : ℕ) (minT : ℤ)
    (segs : List (List Packet)) : Prop :=
  ∀ k, ∀ p ∈ segs.getD k [],
    ((k * Δ : ℕ) : ℚ) ≤ packetShift minT p ∧
    (k < cmax → packetShift minT p < (((k + 1) * Δ : ℕ) : ℚ))

theorem placeSegs_contained (Δ cmax : ℕ) (minT : ℤ) : ∀ (ps : List Packet)
    (c : ℕ) (segs : List (List Packet)), c ≤ cmax → cmax < segs.length →
    List.Pairwise (fun a b : Packet => a.time ≤ b.time) ps →
    (∀ q ∈ ps, ((c * Δ : ℕ) : ℚ) ≤ packetShift minT q) →
    segsContained Δ cmax minT segs →
    segsContained Δ cmax minT (placeSegs Δ cmax minT ps c segs) := by
  intro ps
  induction ps with
  | nil => intro c segs _ _ _ _ hinv; exact hinv
  | cons p rest ih =>
    intro c segs hc hlen hpair hlow hinv
    rw [placeSegs]
    obtain ⟨hge, hle, hspec, hlower⟩ :=
      advanceSeg_props Δ (packetShift minT p) cmax c
    have hle' := hle hc
    have hplow : (((advanceSeg Δ (packetShift minT p) cmax c) * Δ : ℕ) : ℚ) ≤
        packetShift minT p := hlower (hlow p (List.mem_cons_self p rest))
    apply ih _ _ hle' (by simpa using hlen)
      (List.Pairwise.sublist (List.sublist_cons_self p rest) hpair)
    · intro q hq
      have hpq : p.time ≤ q.time := (List.pairwise_cons.mp hpair).1 q hq
      have hshift : packetShift minT p ≤ packetShift minT q := by
        unfold packetShift
        have : p.time * 1000000 ≤ q.time * 1000000 := by nlinarith
        linarith
      linarith
    · -- the invariant is preserved by inserting p into its window
      intro k q hq
      by_cases hk : k = advanceSeg Δ (packetShift minT p) cmax c
      · subst hk
        rw [listGetD_set_self _ _ _ _ (by omega)] at hq
        rcases List.mem_append.mp hq with hold | hnew
        · exact hinv _ q hold
        · have hqp : q = p := by simpa using hnew
          subst hqp
          refine ⟨hplow, fun hlt => ?_⟩
          rcases hspec hc with hin | hmax
          · simp only [inWindowB, Bool.and_eq_true, decide_eq_true_eq]
            at hin
            exact hin.2
          · omega
      · rw [listGetD_set_ne _ _ _ _ _ (fun h => hk h.symm)] at hq
        exact hinv k q hq

theorem pyInt_le_of_nonneg (q : ℚ) (h : 0 ≤ q) : ((pyInt q : ℤ) : ℚ) ≤ q := by
  have hnum : 0 ≤ q.num := Rat.num_nonneg.mpr h
  have heq : pyInt q = ⌊q⌋ := by
    unfold pyInt
    rw [Int.tdiv_eq_ediv hnum (by positivity), Rat.floor_def]
  rw [heq]
  exact Int.floor_le q

theorem foldlMin_le (l : List ℚ) : ∀ (a : ℚ),
    l.foldl min a ≤ a ∧ ∀ x ∈ l, l.foldl min a ≤ x := by
  induction l with
  | nil => intro a; simp
  | cons y ys ih =>
    intro a
    obtain ⟨h1, h2⟩ := ih (min a y)
    refine ⟨le_trans h1 (min_le_left a y), ?_⟩
    intro x hx
    rcases List.mem_cons.mp hx with rfl | hx
    · exact le_trans h1 (min_le_right a x)
    · exact h2 x hx

theorem foldlMin_nonneg (l : List ℚ) : ∀ (a : ℚ), 0 ≤ a →
    (∀ x ∈ l, 0 ≤ x) → 0 ≤ l.foldl min a := by
  induction l with
  | nil => intro a ha _; simpa using ha
  | cons y ys ih =>
    intro a ha hall
    simp only [List.foldl_cons]
    exact ih (min a y) (le_min ha (hall y (List.mem_cons_self y ys)))
      (fun x hx => hall x (List.mem_cons_of_mem y hx))

theorem minTimeOf_le (p0 : Packet) (rest : List Packet) :
    ∀ p ∈ p0 :: rest, minTimeOf p0 rest ≤ p.time := by
  intro p hp
  have hfold : minTimeOf p0 rest = (rest.map Packet.time).foldl min p0.time := by
    unfold minTimeOf
    rw [List.foldl_map]
  obtain ⟨h1, h2⟩ := foldlMin_le (rest.map Packet.time) p0.time
  rcases List.mem_cons.mp hp with rfl | hp
  · rw [hfold]; exact h1
  · rw [hfold]
    exact h2 p.time (List.mem_map.mpr ⟨p, hp, rfl⟩)

theorem minTimeOf_nonneg (p0 : Packet) (rest : List Packet)
    (h : ∀ p ∈ p0 :: rest, 0 ≤ p.time) : 0 ≤ minTimeOf p0 rest := by
  have hfold : minTimeOf p0 rest = (rest.map Packet.time).foldl min p0.time := by
    unfold minTimeOf
    rw [List.foldl_map]
  rw [hfold]
  apply foldlMin_nonneg
  · exact h p0 (List.mem_cons_self p0 rest)
  · intro x hx
    obtain ⟨p, hp, rfl⟩ := List.mem_map.mp hx
    exact h p (List.mem_cons_of_mem p0 hp)

theorem replicate_getD_nil {α : Type} (n j : ℕ) :
    (List.replicate n ([] : List α)).getD j [] = [] := by
  rw [List.getD_eq_getElem?_getD, List.getElem?_replicate]
  by_cases h : j < n <;> simp [h]

theorem sortByTime_pairwise (l : List Packet) :
    List.Pairwise (fun a b : Packet => a.time ≤ b.time) (sortByTime l) := by
  have h := @List.sorted_mergeSort Packet
    (fun a b : Packet => decide (a.time ≤ b.time))
    (fun a b c hab hbc => by
      simp only [decide_eq_true_eq] at *
      exact le_trans hab hbc)
    (fun a b => by
      simp only [Bool.or_eq_true, decide_eq_true_eq]
      exact le_total a.time b.time) l
  exact h.imp (fun hab => by simpa using hab)

/-- C6 (amended): with sorting enabled, on packets with nonnegative
timestamps whose microsecond-truncated duration reaches the window size
(equivalently: whenever a nonempty window list is returned), concatenating
the returned windows yields a permutation of the input, every window except
the last holds only packets whose shifted timestamp lies in its half-open
interval [kΔ, (k+1)Δ), and every window, the last included, holds only
packets whose shifted timestamp is at least its start kΔ. -/
theorem window_packets_time_series_spec (P : List Packet) (Δ : ℕ)
    (segs : List (List Packet)) (htime : ∀ p ∈ P, 0 ≤ p.time)
    (hok : window_packets_time_series P Δ true = .ok segs)
    (hne : segs ≠ []) :
    segs.flatten.Perm P ∧
    ∀ k, ∀ p ∈ segs.getD k [],
      ((k * Δ : ℕ) : ℚ) ≤ packetShift (wptsMinT P) p ∧
      (k < segs.length - 1 →
        packetShift (wptsMinT P) p < (((k + 1) * Δ : ℕ) : ℚ)) := by
  unfold window_packets_time_series at hok
  rw [if_pos rfl] at hok
  cases hpk : sortByTime P with
  | nil => rw [hpk] at hok; exact absurd hok (by simp [wptsCore])
  | cons p0 rest =>
    rw [hpk] at hok
    have hperm : (p0 :: rest).Perm P := hpk ▸ List.mergeSort_perm P _
    have hmem : ∀ q ∈ p0 :: rest, q ∈ P := fun q hq => hperm.mem_iff.mp hq
    have htime' : ∀ q ∈ p0 :: rest, 0 ≤ q.time :=
      fun q hq => htime q (hmem q hq)
    simp only [wptsCore, wptsBody] at hok
    by_cases h1 : pyInt (maxTimeOf p0 rest * 1000000) -
        pyInt (minTimeOf p0 rest * 1000000) < (Δ : ℤ)
    · rw [if_pos h1] at hok
      have hsegs_nil : segs = [] := by
        injection hok with h
        exact h.symm
      exact absurd hsegs_nil hne
    · rw [if_neg h1] at hok
      by_cases h2 : Δ = 0
      · rw [if_pos h2] at hok
        exact absurd hok (by simp)
      · rw [if_neg h2] at hok
        have hΔpos : 0 < Δ := Nat.pos_of_ne_zero h2
        push_neg at h1
        have hseg : placeSegs Δ
            (numWindows (pyInt (maxTimeOf p0 rest * 1000000) -
              pyInt (minTimeOf p0 rest * 1000000)).toNat Δ - 1)
            (pyInt (minTimeOf p0 rest * 1000000)) (p0 :: rest) 0
            (List.replicate (numWindows
              (pyInt (maxTimeOf p0 rest * 1000000) -
               pyInt (minTimeOf p0 rest * 1000000)).toNat Δ) []) = segs := by
          injection hok with h
        set minT := pyInt (minTimeOf p0 rest * 1000000) with hminT_def
        set n := numWindows (pyInt (maxTimeOf p0 rest * 1000000) -
          minT).toNat Δ with hn_def
        have hendT : Δ ≤ (pyInt (maxTimeOf p0 rest * 1000000) - minT).toNat := by
          omega
        have hn1 : 1 ≤ n := by
          rw [hn_def, numWindows, Nat.one_le_div_iff hΔpos]
          omega
        have hrepl_flat : (List.replicate n ([] : List Packet)).flatten = [] := by
          rw [List.flatten_eq_nil_iff]
          intro l hl
          exact (List.mem_replicate.mp hl).2
        have hflat : segs.flatten = p0 :: rest := by
          rw [← hseg]
          rw [placeSegs_flatten Δ (n - 1) minT (p0 :: rest) 0
            (List.replicate n []) (Nat.zero_le _)
            (by rw [List.length_replicate]; omega)
            (fun j _ => replicate_getD_nil n j)]
          rw [hrepl_flat]
          rfl
        have hminT_eq : wptsMinT P = minT := by
          rw [wptsMinT, hpk]
          rfl
        have hlen_segs : segs.length = n := by
          rw [← hseg, placeSegs_length, List.length_replicate]
        have hmin_nonneg : 0 ≤ minTimeOf p0 rest * 1000000 := by
          have := minTimeOf_nonneg p0 rest htime'
          positivity
        have hminT_le : ((minT : ℤ) : ℚ) ≤ minTimeOf p0 rest * 1000000 := by
          rw [hminT_def]
          exact pyInt_le_of_nonneg _ hmin_nonneg
        have hcont : segsContained Δ (n - 1) minT segs := by
          rw [← hseg]
          apply placeSegs_contained Δ (n - 1) minT (p0 :: rest) 0
            (List.replicate n []) (Nat.zero_le _)
            (by rw [List.length_replicate]; omega)
            (hpk ▸ sortByTime_pairwise P)
          · intro q hq
            have hmin_le : minTimeOf p0 rest ≤ q.time := minTimeOf_le p0 rest q hq
            have hle6 : minTimeOf p0 rest * 1000000 ≤ q.time * 1000000 := by
              nlinarith
            simp only [Nat.zero_mul, Nat.cast_zero, packetShift]
            linarith
          · intro k q hq
            rw [replicate_getD_nil] at hq
            exact absurd hq (List.not_mem_nil q)
        refine ⟨hflat ▸ hperm, ?_⟩
        intro k p hp
        obtain ⟨hlow, hhigh⟩ := hcont k p hp
        rw [hminT_eq]
        exact ⟨hlow, fun hk => hhigh (by omega)⟩

/-- Packet at 0 s used in time-series windowing examples. -/
def cePktA : Packet := mkTcpPacket 0 "1.1.1.1" "2.2.2.2" [1] 1 false

/-- Packet at 3 s (3000000 µs) used in time-series windowing examples. -/
def cePktB : Packet := mkTcpPacket 3 "1.1.1.1" "2.2.2.2" [2] 2 false

/-- Packet at 4 s (4000000 µs) used in time-series windowing examples. -/
def cePktD : Packet := mkTcpPacket 4 "1.1.1.1" "2.2.2.2" [4] 4 false

theorem wpts_eval_single :
    window_packets_time_series [cePktA] 2000000 true = .ok [] := by
  have hsort : sortByTime [cePktA] = [cePktA] :=
    List.mergeSort_of_sorted (by norm_num)
  have hmin : pyInt (minTimeOf cePktA [] * 1000000) = 0 := by
    norm_num [minTimeOf, cePktA, mkTcpPacket, pyInt]
  have hmax : pyInt (maxTimeOf cePktA [] * 1000000) = 0 := by
    norm_num [maxTimeOf, cePktA, mkTcpPacket, pyInt]
  unfold window_packets_time_series
  rw [if_pos rfl, hsort]
  show wptsBody cePktA [] 2000000 = _
  unfold wptsBody
  rw [hmin, hmax]
  rw [if_pos (by decide)]

theorem wpts_eval_pair :
    window_packets_time_series [cePktA, cePktB] 2000000 true =
      .ok [[cePktA], [cePktB]] := by
  have hsort : sortByTime [cePktA, cePktB] = [cePktA, cePktB] :=
    List.mergeSort_of_sorted
      (by norm_num [cePktA, cePktB, mkTcpPacket])
  have hmin : pyInt (minTimeOf cePktA [cePktB] * 1000000) = 0 := by
    norm_num [minTimeOf, cePktA, cePktB, mkTcpPacket, pyInt]
  have hmax : pyInt (maxTimeOf cePktA [cePktB] * 1000000) = 3000000 := by
    norm_num [maxTimeOf, cePktA, cePktB, mkTcpPacket, pyInt]
  have hshA : packetShift 0 cePktA = 0 := by
    norm_num [packetShift, cePktA, mkTcpPacket]
  have hshB : packetShift 0 cePktB = 3000000 := by
    norm_num [packetShift, cePktB, mkTcpPacket]
  unfold window_packets_time_series
  rw [if_pos rfl, hsort]
  show wptsBody cePktA [cePktB] 2000000 = _
  unfold wptsBody
  rw [hmin, hmax]
  rw [if_neg (by decide), if_neg (by decide)]
  rw [show numWindows ((3000000 : ℤ) - 0).toNat 2000000 = 2 from by decide]
  rw [placeSegs, hshA]
  rw [show advanceSeg 2000000 0 (2 - 1) 0 = 0 from by
    rw [advanceSeg]
    rw [dif_neg (by decide)]]
  rw [placeSegs, hshB]
  rw [show advanceSeg 2000000 3000000 (2 - 1) 0 = 1 from by
    rw [advanceSeg]
    rw [dif_pos (by decide)]
    rw [advanceSeg]
    rw [dif_neg (by decide)]]
  rw [placeSegs]
  rfl

theorem wpts_eval_triple :
    window_packets_time_series [cePktA, cePktB, cePktD] 2000000 true =
      .ok [[cePktA], [cePktB, cePktD]] := by
  have hsort : sortByTime [cePktA, cePktB, cePktD] =
      [cePktA, cePktB, cePktD] :=
    List.mergeSort_of_sorted
      (by norm_num [cePktA, cePktB, cePktD, mkTcpPacket])
  have hmin : pyInt (minTimeOf cePktA [cePktB, cePktD] * 1000000) = 0 := by
    norm_num [minTimeOf, cePktA, cePktB, cePktD, mkTcpPacket, pyInt]
  have hmax : pyInt (maxTimeOf cePktA [cePktB, cePktD] * 1000000) =
      4000000 := by
    norm_num [maxTimeOf, cePktA, cePktB, cePktD, mkTcpPacket, pyInt]
  have hshA : packetShift 0 cePktA = 0 := by
    norm_num [packetShift, cePktA, mkTcpPacket]
  have hshB : packetShift 0 cePktB = 3000000 := by
    norm_num [packetShift, cePktB, mkTcpPacket]
  have hshD : packetShift 0 cePktD = 4000000 := by
    norm_num [packetShift, cePktD, mkTcpPacket]
  unfold window_packets_time_series
  rw [if_pos rfl, hsort]
  show wptsBody cePktA [cePktB, cePktD] 2000000 = _
  unfold wptsBody
  rw [hmin, hmax]
  rw [if_neg (by decide), if_neg (by decide)]
  rw [show numWindows ((4000000 : ℤ) - 0).toNat 2000000 = 2 from by decide]
  rw [placeSegs, hshA]
  rw [show advanceSeg 2000000 0 (2 - 1) 0 = 0 from by
    rw [advanceSeg]
    rw [dif_neg (by decide)]]
  rw [placeSegs, hshB]
  rw [show advanceSeg 2000000 3000000 (2 - 1) 0 = 1 from by
    rw [advanceSeg]
    rw [dif_pos (by decide)]
    rw [advanceSeg]
    rw [dif_neg (by decide)]]
  rw [placeSegs, hshD]
  rw [show advanceSeg 2000000 4000000 (2 - 1) 1 = 1 from by
    rw [advanceSeg]
    rw [dif_neg (by decide)]]
  rw [placeSegs]
  rfl

/-- Witness for C6 (amended) at packets 0 s and 3 s with Δ = 2000000 µs:
two windows [[pA], [pB]] whose concatenation is a permutation of the
input and whose packets lie inside their window intervals. -/
theorem window_packets_time_series_spec_witness :
    ([[cePktA], [cePktB]] : List (List Packet)).flatten.Perm
      [cePktA, cePktB] ∧
    ∀ k, ∀ p ∈ ([[cePktA], [cePktB]] : List (List Packet)).getD k [],
      ((k * 2000000 : ℕ) : ℚ) ≤ packetShift (wptsMinT [cePktA, cePktB]) p ∧
      (k < ([[cePktA], [cePktB]] : List (List Packet)).length - 1 →
        packetShift (wptsMinT [cePktA, cePktB]) p <
          (((k + 1) * 2000000 : ℕ) : ℚ)) :=
  window_packets_time_series_spec [cePktA, cePktB] 2000000
    [[cePktA], [cePktB]]
    (by intro p hp; fin_cases hp <;> norm_num [cePktA, cePktB, mkTcpPacket])
    wpts_eval_pair (by simp)

/-- Counterexample to C6 as stated. First conjunct: a single packet with
Δ = 2000000 returns no windows at all, so the concatenation of the windows
is not a permutation of the input. Second conjunct: on packets at 0, 3 and
4 seconds the returned second (and last) window holds the shifted
timestamps 3000000 and 4000000 µs; a shifted timestamp t lies in a grid
interval [kΔ, (k+1)Δ) exactly for k = ⌊t/Δ⌋, and those two indices differ,
so no single half-open Δ-interval contains all timestamps of that window. -/
theorem window_packets_time_series_claim_false :
    (window_packets_time_series [cePktA] 2000000 true = .ok [] ∧
      ¬ (([] : List (List Packet)).flatten.Perm [cePktA])) ∧
    (window_packets_time_series [cePktA, cePktB, cePktD] 2000000 true =
        .ok [[cePktA], [cePktB, cePktD]] ∧
      packetShift (wptsMinT [cePktA, cePktB, cePktD]) cePktB = 3000000 ∧
      packetShift (wptsMinT [cePktA, cePktB, cePktD]) cePktD = 4000000 ∧
      ⌊(3000000 : ℚ) / 2000000⌋ = 1 ∧ ⌊(4000000 : ℚ) / 2000000⌋ = 2) := by
  refine ⟨⟨wpts_eval_single, by simp⟩, ⟨wpts_eval_triple, ?_, ?_, ?_, ?_⟩⟩
  · have hsort : sortByTime [cePktA, cePktB, cePktD] =
        [cePktA, cePktB, cePktD] :=
      List.mergeSort_of_sorted
        (by norm_num [cePktA, cePktB, cePktD, mkTcpPacket])
    rw [wptsMinT, hsort]
    norm_num [listMinT, minTimeOf, pyInt, packetShift, cePktA, cePktB,
      cePktD, mkTcpPacket]
  · have hsort : sortByTime [cePktA, cePktB, cePktD] =
        [cePktA, cePktB, cePktD] :=
      List.mergeSort_of_sorted
        (by norm_num [cePktA, cePktB, cePktD, mkTcpPacket])
    rw [wptsMinT, hsort]
    norm_num [listMinT, minTimeOf, pyInt, packetShift, cePktA, cePktB,
      cePktD, mkTcpPacket]
  · rw [Int.floor_eq_iff]
    norm_num
  · rw [Int.floor_eq_iff]
    norm_num

/-! ### get_window_stats (analytics/traffic.py lines 222-533)

The client_ips argument of the source is converted to subnet objects by
the external data.utils.build_subnet collaborator; the embedding abstracts
a subnet as its membership predicate on textual IPs and receives the
already-built subnet list. The analytics.entropy.EntropyAnalyser
byte_entropy collaborator is likewise passed in as a function parameter. -/

/-- The feature selection tags of analytics.constants (USE_ENTROPY,
USE_INTERVAL, USE_INTERVAL_BINS, USE_TCP_LEN, USE_TCP_LEN_BINS, USE_PSH). -/
inductive FeatureTag where
  | entropy
  | interval
  | intervalBins
  | tcpLen
  | tcpLenBins
  | psh
deriving DecidableEq, Repr

/-- Lines 268-274: a feature group is enabled when all features are on
(feature_selection None or empty) or its tag is selected. -/
def featEnabled (sel : Option (List FeatureTag)) (f : FeatureTag) : Bool :=
  match sel with
  | none => true
  | some fs => if fs.isEmpty then true else f ∈ fs

/-- The interval bins of line 292: half-open microsecond ranges keyed by
(low, high) pairs, each with a zero count. -/
def initIntervalBins : List ((ℕ × ℕ) × ℕ) :=
  [((0, 1000), 0), ((1000, 10000), 0), ((10000, 100000), 0),
   ((100000, 1000000), 0)]

/-- The TCP payload length bins of line 294: (0,100) up to (1400,1500),
each with a zero count. -/
def initLenBins : List ((ℕ × ℕ) × ℕ) :=
  (List.range 15).map (fun i => ((i * 100, (i + 1) * 100), 0))

/-- Lines 340-343 and 354-357: bump the first bin whose half-open range
contains the (rational) value, leaving the rest untouched. -/
def bumpBinQ : List ((ℕ × ℕ) × ℕ) → ℚ → List ((ℕ × ℕ) × ℕ)
  | [], _ => []
  | (k, cnt) :: rest, v =>
    if ((k.1 : ℚ) ≤ v ∧ v < (k.2 : ℚ)) then (k, cnt + 1) :: rest
    else (k, cnt) :: bumpBinQ rest v

/-- The same first-match bin bump for a natural value. -/
def bumpBinN : List ((ℕ × ℕ) × ℕ) → ℕ → List ((ℕ × ℕ) × ℕ)
  | [], _ => []
  | (k, cnt) :: rest, v =>
    if (k.1 ≤ v ∧ v < k.2) then (k, cnt + 1) :: rest
    else (k, cnt) :: bumpBinN rest v

/-- Line 352: add the large-segmentation quotient to the (1400, 1500)
bin. -/
def bumpLastLenBin (bins : List ((ℕ × ℕ) × ℕ)) (q : ℕ) :
    List ((ℕ × ℕ) × ℕ) :=
  bins.map (fun e => if e.1 = (1400, 1500) then (e.1, e.2 + q) else e)

/-- Lines 350-357: payload lengths above 1500 put their 1500-quotient into
the last bin and their remainder through the normal binning; other lengths
are binned directly. -/
def lsoBump (bins : List ((ℕ × ℕ) × ℕ)) (len : ℕ) :
    List ((ℕ × ℕ) × ℕ) :=
  if 1500 < len then bumpBinN (bumpLastLenBin bins (len / 1500)) (len % 1500)
  else bumpBinN bins len

/-- Python set.add on a set kept as a duplicate-free insertion-ordered
list. -/
def listInsert (l : List String) (s : String) : List String :=
  if s ∈ l then l else l ++ [s]

/-- The per-direction accumulator variables of lines 289-296 / 299-306,
together with the window-level ips and client_ips_seen sets that both
direction loops extend. -/
structure DirTally where
  seqsSeen : List ℕ
  entropies : List ℚ
  prevTime : Option ℚ
  intervals : List ℚ
  intervalBins : List ((ℕ × ℕ) × ℕ)
  payloadLengths : List ℕ
  lenBins : List ((ℕ × ℕ) × ℕ)
  psh : ℕ
  ack : ℕ
  ips : List String
  clientIpsSeen : List String

/-- Fresh per-direction accumulators; ips and client_ips_seen persist
across the two direction loops and are passed in. -/
def initTally (ips clientSeen : List String) : DirTally :=
  { seqsSeen := [], entropies := [], prevTime := none, intervals := [],
    intervalBins := initIntervalBins, payloadLengths := [],
    lenBins := initLenBins, psh := 0, ack := 0, ips := ips,
    clientIpsSeen := clientSeen }

/-- One iteration of a direction loop for a TCP packet when the entropy
feature is enabled (lines 322-364 / 430-474): the peer and client IP set
inserts, the entropy append, the first-occurrence sequence-number interval
tally with its bin bump, the payload length tally with large-segment
handling, and the ACK/PSH counters. The loop statements write disjoint
variables, so they are recorded as independent field updates. -/
def dirStep (be : List ℕ → ℚ) (tOn tbOn pOn : Bool)
    (peerOf clientOf : Packet → String) (p : Packet) (tcp : TCPInfo)
    (s : DirTally) : DirTally :=
  { ips := listInsert s.ips (peerOf p)
    clientIpsSeen := listInsert s.clientIpsSeen (clientOf p)
    entropies := s.entropies ++ [be tcp.payload]
    seqsSeen :=
      if tcp.seq ∈ s.seqsSeen then s.seqsSeen else s.seqsSeen ++ [tcp.seq]
    prevTime :=
      if tcp.seq ∈ s.seqsSeen then s.prevTime else some (p.time * 1000000)
    intervals :=
      if tcp.seq ∈ s.seqsSeen then s.intervals
      else
        match s.prevTime with
        | none => s.intervals
        | some pt => s.intervals ++ [|p.time * 1000000 - pt|]
    intervalBins :=
      if tcp.seq ∈ s.seqsSeen then s.intervalBins
      else
        match s.prevTime with
        | none => s.intervalBins
        | some pt => bumpBinQ s.intervalBins |p.time * 1000000 - pt|
    payloadLengths :=
      if tOn then s.payloadLengths ++ [tcp.payload.length]
      else s.payloadLengths
    lenBins :=
      if tbOn then lsoBump s.lenBins tcp.payload.length else s.lenBins
    ack := if pOn ∧ tcp.flags.ack then s.ack + 1 else s.ack
    psh :=
      if pOn ∧ tcp.flags.ack ∧ tcp.flags.psh then s.psh + 1 else s.psh }

/-- One direction loop of get_window_stats (lines 315-364 upstream,
423-474 downstream; the two bodies are identical up to the up/down naming
and the swap of src and dst, so they share this embedding). Non-TCP
packets are skipped (line 320/428). For a TCP packet the local packet_tcp
is bound only inside the entropy branch (line 327/435); when the entropy
feature is not enabled, the unconditional interval bookkeeping of line
331/439 reads the unbound packet_tcp and raises NameError. Otherwise the
iteration applies dirStep, whose fields reproduce the loop body statement
by statement (the statements write disjoint variables, so they are
recorded as independent field updates). -/
def dirTally (be : List ℕ → ℚ) (eOn tOn tbOn pOn : Bool)
    (peerOf clientOf : Packet → String) :
    List Packet → DirTally → Except String DirTally
  | [], s => .ok s
  | p :: rest, s =>
    match p.tcp_info with
    | none => dirTally be eOn tOn tbOn pOn peerOf clientOf rest s
    | some tcp =>
      if eOn = false then .error "NameError: name packet_tcp is not defined"
      else dirTally be eOn tOn tbOn pOn peerOf clientOf rest
        (dirStep be tOn tbOn pOn peerOf clientOf p tcp s)

/-- np.mean over a rational list. np.mean of an empty list is NaN in the
source; it is modelled as 0, a value no theorem below depends on. -/
def ratMean (l : List ℚ) : ℚ :=
  if l.isEmpty then 0 else l.sum / (l.length : ℚ)

/-- np.max over a nonempty rational list (the empty case, on which numpy
raises, is guarded by the caller). -/
def listMaxQ : List ℚ → ℚ
  | [] => 0
  | x :: xs => xs.foldl max x

/-- np.min over a nonempty rational list. -/
def listMinQ : List ℚ → ℚ
  | [] => 0
  | x :: xs => xs.foldl min x

/-- The distinct values of a list in first-occurrence order, as the keys
of collections.Counter iterate. -/
def firstOccurrences : List ℕ → List ℕ
  | [] => []
  | x :: xs => x :: firstOccurrences (xs.filter (fun y => y ≠ x))
termination_by l => l.length
decreasing_by
  simp only [List.length_cons]
  exact Nat.lt_succ_of_le (List.length_filter_le _ xs)

/-- Counter(payload_lengths).items(): (value, multiplicity) pairs in
first-occurrence order. -/
def countsList (l : List ℕ) : List (ℕ × ℕ) :=
  (firstOccurrences l).map (fun v => (v, l.count v))

/-- Line 383/493: sorted(Counter(...).items(), key=itemgetter(1)) — the
count pairs stably sorted by ascending count. -/
def sortedLenCounts (l : List ℕ) : List (ℕ × ℕ) :=
  (countsList l).mergeSort (fun a b => decide (a.2 ≤ b.2))

/-- Line 384/494: the length at index 0 of the ascending-by-count sort,
or 0 when there is none. -/
def top1Of (l : List ℕ) : ℕ :=
  match sortedLenCounts l with
  | [] => 0
  | x :: _ => x.1

/-- Line 385/495: the length at index 1 of the ascending-by-count sort,
or 0 when there is none. -/
def top2Of (l : List ℕ) : ℕ :=
  match sortedLenCounts l with
  | _ :: y :: _ => y.1
  | _ => 0

/-- The stats key string for a bin feature: Python renders the dict key
tuple (lo, hi) with str(), giving e.g. bin_(0, 1000)_interval_up. -/
def binKeyStr (k : ℕ × ℕ) (kind suffix : String) : String :=
  "bin_(" ++ toString k.1 ++ ", " ++ toString k.2 ++ ")_" ++ kind ++ "_" ++
    suffix

/-- The stats entries written by a direction whose packets were tallied
(lines 366-396 / 476-506). When the entropy feature is enabled and no TCP
packet contributed an entropy, np.max on the empty array raises
ValueError (np.mean merely warns and yields NaN, but np.max is reached
right after). -/
def emitTallied (suffix : String)
    (eOn iOn ibOn tOn tbOn pOn : Bool) (dirCount : ℕ) (t : DirTally) :
    Except String (List (String × ℚ)) :=
  if eOn = true ∧ t.entropies = [] then
    .error "ValueError: zero-size array to reduction operation"
  else
    .ok ((if eOn then
            [("mean_entropy_" ++ suffix, ratMean t.entropies),
             ("max_entropy_" ++ suffix, listMaxQ t.entropies),
             ("min_entropy_" ++ suffix, listMinQ t.entropies)]
          else []) ++
         (if iOn then
            [("mean_interval_" ++ suffix,
              if t.intervals = [] then 1000000 else ratMean t.intervals)]
          else []) ++
         (if ibOn then
            t.intervalBins.map (fun e =>
              (binKeyStr e.1 "interval" suffix, (e.2 : ℚ) / (dirCount : ℚ)))
          else []) ++
         (if tOn then
            [("top1_tcp_len_" ++ suffix, (top1Of t.payloadLengths : ℚ)),
             ("top2_tcp_len_" ++ suffix, (top2Of t.payloadLengths : ℚ)),
             ("mean_tcp_len_" ++ suffix,
              ratMean (t.payloadLengths.map (fun n => (n : ℚ))))]
          else []) ++
         (if tbOn then
            t.lenBins.map (fun e =>
              (binKeyStr e.1 "len" suffix, (e.2 : ℚ) / (dirCount : ℚ)))
          else []) ++
         (if pOn then
            [("push_ratio_" ++ suffix,
              if 0 < t.ack then (t.psh : ℚ) / (t.ack : ℚ) else 0)]
          else []))

/-- The default stats entries of a direction with too few packets
(lines 398-420 / 508-530): entropies 0, mean interval 1000000, zero bin
counts over the untouched bin keys, zero top and mean lengths, zero push
ratio — each only for its enabled feature group. -/
def emitDefaults (suffix : String)
    (eOn iOn ibOn tOn tbOn pOn : Bool) : List (String × ℚ) :=
  (if eOn then
     [("mean_entropy_" ++ suffix, 0), ("max_entropy_" ++ suffix, 0),
      ("min_entropy_" ++ suffix, 0)]
   else []) ++
  (if iOn then [("mean_interval_" ++ suffix, 1000000)] else []) ++
  (if ibOn then
     initIntervalBins.map (fun e => (binKeyStr e.1 "interval" suffix, 0))
   else []) ++
  (if tOn then
     [("top1_tcp_len_" ++ suffix, 0), ("top2_tcp_len_" ++ suffix, 0),
      ("mean_tcp_len_" ++ suffix, 0)]
   else []) ++
  (if tbOn then
     initLenBins.map (fun e => (binKeyStr e.1 "len" suffix, 0))
   else []) ++
  (if pOn then [("push_ratio_" ++ suffix, 0)] else [])

/-- Line 297: the upstream packets, whose source IP overlaps some client
subnet. -/
def packetsUp (clients : List (String → Bool)) (win : List Packet) :
    List Packet :=
  win.filter (fun p => clients.any (fun c => c p.src))

/-- Line 307: the downstream packets, whose destination IP overlaps some
client subnet. -/
def packetsDown (clients : List (String → Bool)) (win : List Packet) :
    List Packet :=
  win.filter (fun p => clients.any (fun c => c p.dst))

/-- Lines 309-312: the ratio of upstream to downstream packet counts, 0
when either is empty. -/
def gwsUdr (up down : List Packet) : ℚ :=
  if 0 < up.length ∧ 0 < down.length then
    (up.length : ℚ) / (down.length : ℚ)
  else 0

/-- The upstream half of get_window_stats: tally and emit when the
direction has more than one packet (line 315), else the defaults of
line 398. -/
def gwsUp (be : List ℕ → ℚ) (eOn iOn ibOn tOn tbOn pOn : Bool)
    (up : List Packet) :
    Except String (List (String × ℚ) × DirTally) :=
  if 1 < up.length then
    (dirTally be eOn tOn tbOn pOn Packet.dst Packet.src up
      (initTally [] [])).bind
      (fun t => (emitTallied "up" eOn iOn ibOn tOn tbOn pOn up.length t).map
        (fun su => (su, t)))
  else .ok (emitDefaults "up" eOn iOn ibOn tOn tbOn pOn, initTally [] [])

/-- The downstream half of get_window_stats: tally and emit when the
direction has any packet (line 423), else the defaults of line 508. The
window-level ips and client_ips_seen sets continue from the upstream
tally. -/
def gwsDown (be : List ℕ → ℚ) (eOn iOn ibOn tOn tbOn pOn : Bool)
    (down : List Packet) (tUp : DirTally) :
    Except String (List (String × ℚ) × DirTally) :=
  if 0 < down.length then
    (dirTally be eOn tOn tbOn pOn Packet.src Packet.dst down
      (initTally tUp.ips tUp.clientIpsSeen)).bind
      (fun t => (emitTallied "down" eOn iOn ibOn tOn tbOn pOn down.length
        t).map (fun sd => (sd, t)))
  else .ok (emitDefaults "down" eOn iOn ibOn tOn tbOn pOn, tUp)

/-- traffic.py get_window_stats: the features of a window of packets with
respect to the client subnets, together with the peer IPs and client IPs
seen. An empty subnet list returns empty results (line 276). -/
def get_window_stats (be : List ℕ → ℚ) (windowedPackets : List Packet)
    (clientSubnets : List (String → Bool))
    (featureSelection : Option (List FeatureTag)) :
    Except String (List (String × ℚ) × List String × List String) :=
  if clientSubnets.isEmpty then .ok ([], [], [])
  else
    (gwsUp be (featEnabled featureSelection .entropy)
      (featEnabled featureSelection .interval)
      (featEnabled featureSelection .intervalBins)
      (featEnabled featureSelection .tcpLen)
      (featEnabled featureSelection .tcpLenBins)
      (featEnabled featureSelection .psh)
      (packetsUp clientSubnets windowedPackets)).bind (fun x =>
    (gwsDown be (featEnabled featureSelection .entropy)
      (featEnabled featureSelection .interval)
      (featEnabled featureSelection .intervalBins)
      (featEnabled featureSelection .tcpLen)
      (featEnabled featureSelection .tcpLenBins)
      (featEnabled featureSelection .psh)
      (packetsDown clientSubnets windowedPackets) x.2).bind (fun y =>
    .ok (("up_down_ratio",
           gwsUdr (packetsUp clientSubnets windowedPackets)
             (packetsDown clientSubnets windowedPackets)) :: x.1 ++ y.1,
         y.2.ips, y.2.clientIpsSeen)))

/-- The stats mapping of a get_window_stats result, empty on error. -/
def gwsStats
    (r : Except String (List (String × ℚ) × List String × List String)) :
    List (String × ℚ) :=
  match r with
  | .ok x => x.1
  | .error _ => []

theorem dirTally_name_error (be : List ℕ → ℚ) (tOn tbOn pOn : Bool)
    (peerOf clientOf : Packet → String) :
    ∀ (ps : List Packet) (s : DirTally), (∃ p ∈ ps, p.tcp_info.isSome) →
    dirTally be false tOn tbOn pOn peerOf clientOf ps s =
      .error "NameError: name packet_tcp is not defined" := by
  intro ps
  induction ps with
  | nil => intro s h; simp at h
  | cons p rest ih =>
    intro s h
    rw [dirTally]
    cases htcp : p.tcp_info with
    | none =>
      apply ih
      rcases h with ⟨q, hq, hsome⟩
      rcases List.mem_cons.mp hq with rfl | hq
      · rw [htcp] at hsome; simp at hsome
      · exact ⟨q, hq, hsome⟩
    | some tcp => simp

theorem dirTally_skip_all (be : List ℕ → ℚ) (eOn tOn tbOn pOn : Bool)
    (peerOf clientOf : Packet → String) :
    ∀ (ps : List Packet) (s : DirTally), (∀ p ∈ ps, p.tcp_info = none) →
    dirTally be eOn tOn tbOn pOn peerOf clientOf ps s = .ok s := by
  intro ps
  induction ps with
  | nil => intro s _; rfl
  | cons p rest ih =>
    intro s h
    rw [dirTally]
    rw [h p (List.mem_cons_self p rest)]
    exact ih s (fun q hq => h q (List.mem_cons_of_mem p hq))

theorem emitTallied_ok_of_entropy_off (suffix : String)
    (iOn ibOn tOn tbOn pOn : Bool) (n : ℕ) (t : DirTally) :
    ∃ l, emitTallied suffix false iOn ibOn tOn tbOn pOn n t = .ok l := by
  cases h : emitTallied suffix false iOn ibOn tOn tbOn pOn n t with
  | ok l => exact ⟨l, rfl⟩
  | error e =>
    rw [emitTallied, if_neg (by simp)] at h
    exact absurd h (by simp)

/-- C9: for every nonempty feature selection that does not contain
ENTROPY, get_window_stats raises the unhandled NameError on the local
packet_tcp as soon as a direction with enough packets to be tallied (more
than one upstream, at least one downstream) contains a TCP packet, so the
selected-feature outputs are never produced for such windows. -/
theorem get_window_stats_entropy_off_name_error (be : List ℕ → ℚ)
    (win : List Packet) (clients : List (String → Bool))
    (fs : List FeatureTag) (hne : fs ≠ [])
    (hent : FeatureTag.entropy ∉ fs)
    (htrig : (1 < (packetsUp clients win).length ∧
        ∃ p ∈ packetsUp clients win, p.tcp_info.isSome) ∨
      (0 < (packetsDown clients win).length ∧
        ∃ p ∈ packetsDown clients win, p.tcp_info.isSome)) :
    get_window_stats be win clients (some fs) =
      .error "NameError: name packet_tcp is not defined" := by
  have hclients : clients.isEmpty = false := by
    rcases htrig with ⟨hlen, _⟩ | ⟨hlen, _⟩ <;>
    · cases hcl : clients with
      | nil => simp [packetsUp, packetsDown, hcl] at hlen
      | cons c cs => simp
  have heOn : featEnabled (some fs) FeatureTag.entropy = false := by
    rw [featEnabled]
    rw [if_neg (by simp [hne])]
    simpa using hent
  unfold get_window_stats
  rw [if_neg (by simp [hclients])]
  rw [heOn]
  by_cases hup : 1 < (packetsUp clients win).length
  · by_cases huptcp : ∃ p ∈ packetsUp clients win, p.tcp_info.isSome
    · -- the upstream tally hits the unbound packet_tcp first
      rw [gwsUp, if_pos hup,
        dirTally_name_error be _ _ _ _ _ _ _ huptcp]
      rfl
    · -- upstream has no TCP packet; the trigger is downstream
      have hdown : 0 < (packetsDown clients win).length ∧
          ∃ p ∈ packetsDown clients win, p.tcp_info.isSome := by
        rcases htrig with ⟨_, htcp⟩ | h
        · exact absurd htcp huptcp
        · exact h
      push_neg at huptcp
      have hnone : ∀ p ∈ packetsUp clients win, p.tcp_info = none :=
        fun p hp => Option.not_isSome_iff_eq_none.mp (by simpa using huptcp p hp)
      rw [gwsUp, if_pos hup, dirTally_skip_all be _ _ _ _ _ _ _ _ hnone]
      obtain ⟨l, hl⟩ := emitTallied_ok_of_entropy_off "up"
        (featEnabled (some fs) FeatureTag.interval)
        (featEnabled (some fs) FeatureTag.intervalBins)
        (featEnabled (some fs) FeatureTag.tcpLen)
        (featEnabled (some fs) FeatureTag.tcpLenBins)
        (featEnabled (some fs) FeatureTag.psh)
        (packetsUp clients win).length (initTally [] [])
      simp only [Except.bind, hl, Except.map]
      rw [gwsDown, if_pos hdown.1,
        dirTally_name_error be _ _ _ _ _ _ _ hdown.2]
      rfl
  · have hdown : 0 < (packetsDown clients win).length ∧
        ∃ p ∈ packetsDown clients win, p.tcp_info.isSome := by
      rcases htrig with ⟨h2, _⟩ | h
      · exact absurd h2 hup
      · exact h
    rw [gwsUp, if_neg hup]
    simp only [Except.bind]
    rw [gwsDown, if_pos hdown.1,
      dirTally_name_error be _ _ _ _ _ _ _ hdown.2]
    rfl

/-- The TCP payload lengths of the packets of a direction, in order,
non-TCP packets skipped — what the payload-length tally collects. -/
def tcpPayloadLengths (ps : List Packet) : List ℕ :=
  ps.filterMap (fun p => p.tcp_info.map (fun t => t.payload.length))

theorem dirTally_cons_none (be : List ℕ → ℚ) (eOn tOn tbOn pOn : Bool)
    (peerOf clientOf : Packet → String) (p : Packet) (rest : List Packet)
    (s : DirTally) (htcp : p.tcp_info = none) :
    dirTally be eOn tOn tbOn pOn peerOf clientOf (p :: rest) s =
    dirTally be eOn tOn tbOn pOn peerOf clientOf rest s := by
  rw [dirTally, htcp]

theorem dirTally_cons_some (be : List ℕ → ℚ) (tOn tbOn pOn : Bool)
    (peerOf clientOf : Packet → String) (p : Packet) (tcp : TCPInfo)
    (rest : List Packet) (s : DirTally) (htcp : p.tcp_info = some tcp) :
    dirTally be true tOn tbOn pOn peerOf clientOf (p :: rest) s =
    dirTally be true tOn tbOn pOn peerOf clientOf rest
      (dirStep be tOn tbOn pOn peerOf clientOf p tcp s) := by
  rw [dirTally, htcp]
  rfl

theorem dirTally_payloadLengths (be : List ℕ → ℚ) (tOn tbOn pOn : Bool)
    (peerOf clientOf : Packet → String) :
    ∀ (ps : List Packet) (s t : DirTally),
    dirTally be true tOn tbOn pOn peerOf clientOf ps s = .ok t →
    t.payloadLengths = s.payloadLengths ++
      (if tOn then tcpPayloadLengths ps else []) := by
  intro ps
  induction ps with
  | nil =>
    intro s t h
    rw [dirTally] at h
    injection h with h
    subst h
    cases tOn <;> simp [tcpPayloadLengths]
  | cons p rest ih =>
    intro s t h
    cases htcp : p.tcp_info with
    | none =>
      rw [dirTally_cons_none be true tOn tbOn pOn peerOf clientOf p rest s
        htcp] at h
      have := ih s t h
      rw [this]
      cases tOn <;> simp [tcpPayloadLengths, htcp]
    | some tcp =>
      rw [dirTally_cons_some be tOn tbOn pOn peerOf clientOf p tcp rest s
        htcp] at h
      have := ih _ t h
      rw [this]
      have hstep : (dirStep be tOn tbOn pOn peerOf clientOf p tcp
          s).payloadLengths =
          if tOn then s.payloadLengths ++ [tcp.payload.length]
          else s.payloadLengths := rfl
      rw [hstep]
      cases tOn <;> simp [tcpPayloadLengths, htcp]

theorem dirTally_intervalBins_keys (be : List ℕ → ℚ)
    (eOn tOn tbOn pOn : Bool) (peerOf clientOf : Packet → String) :
    ∀ (ps : List Packet) (s t : DirTally),
    dirTally be eOn tOn tbOn pOn peerOf clientOf ps s = .ok t →
    t.intervalBins.map Prod.fst = s.intervalBins.map Prod.fst ∧
    t.lenBins.map Prod.fst = s.lenBins.map Prod.fst := by
  have hbumpQ : ∀ (bins : List ((ℕ × ℕ) × ℕ)) (v : ℚ),
      (bumpBinQ bins v).map Prod.fst = bins.map Prod.fst := by
    intro bins v
    induction bins with
    | nil => rfl
    | cons b bs ih =>
      rw [bumpBinQ]
      by_cases hc : ((b.1.1 : ℚ) ≤ v ∧ v < (b.1.2 : ℚ))
      · rw [if_pos hc]
        simp
      · rw [if_neg hc]
        simp [ih]
  have hbumpN : ∀ (bins : List ((ℕ × ℕ) × ℕ)) (v : ℕ),
      (bumpBinN bins v).map Prod.fst = bins.map Prod.fst := by
    intro bins v
    induction bins with
    | nil => rfl
    | cons b bs ih =>
      rw [bumpBinN]
      by_cases hc : (b.1.1 ≤ v ∧ v < b.1.2)
      · rw [if_pos hc]
        simp
      · rw [if_neg hc]
        simp [ih]
  have hlast : ∀ (bins : List ((ℕ × ℕ) × ℕ)) (q : ℕ),
      (bumpLastLenBin bins q).map Prod.fst = bins.map Prod.fst := by
    intro bins q
    induction bins with
    | nil => rfl
    | cons b bs ih =>
      rw [bumpLastLenBin]
      simp only [List.map_cons, List.map_map] at *
      by_cases hb : b.1 = (1400, 1500) <;> simp [hb, bumpLastLenBin] at ih ⊢
      · exact ih
      · exact ih
  have hlso : ∀ (bins : List ((ℕ × ℕ) × ℕ)) (v : ℕ),
      (lsoBump bins v).map Prod.fst = bins.map Prod.fst := by
    intro bins v
    rw [lsoBump]
    by_cases hc : 1500 < v
    · rw [if_pos hc, hbumpN, hlast]
    · rw [if_neg hc, hbumpN]
  intro ps
  induction ps with
  | nil =>
    intro s t h
    rw [dirTally] at h
    injection h with h
    subst h
    exact ⟨rfl, rfl⟩
  | cons p rest ih =>
    intro s t h
    cases htcp : p.tcp_info with
    | none =>
      rw [dirTally_cons_none be eOn tOn tbOn pOn peerOf clientOf p rest s
        htcp] at h
      exact ih s t h
    | some tcp =>
      by_cases heOn : eOn = false
      · subst heOn
        rw [dirTally, htcp] at h
        exact absurd h (by simp)
      · have heOn' : eOn = true := by
          cases eOn
          · exact absurd rfl heOn
          · rfl
        subst heOn'
        rw [dirTally_cons_some be tOn tbOn pOn peerOf clientOf p tcp rest s
          htcp] at h
        obtain ⟨h1, h2⟩ := ih _ t h
        constructor
        · rw [h1]
          show (if tcp.seq ∈ s.seqsSeen then s.intervalBins
            else match s.prevTime with
              | none => s.intervalBins
              | some pt => bumpBinQ s.intervalBins
                  |p.time * 1000000 - pt|).map Prod.fst =
            s.intervalBins.map Prod.fst
          by_cases hseq : tcp.seq ∈ s.seqsSeen
          · rw [if_pos hseq]
          · rw [if_neg hseq]
            cases s.prevTime with
            | none => rfl
            | some pt => exact hbumpQ _ _
        · rw [h2]
          show (if tbOn then lsoBump s.lenBins tcp.payload.length
            else s.lenBins).map Prod.fst = s.lenBins.map Prod.fst
          by_cases htb : tbOn = true
          · rw [if_pos htb]
            exact hlso _ _
          · rw [if_neg htb]

theorem firstOccurrences_mem : ∀ (l : List ℕ) (x : ℕ),
    x ∈ firstOccurrences l ↔ x ∈ l := by
  intro l
  suffices H : ∀ N (l : List ℕ), l.length ≤ N → ∀ x,
      (x ∈ firstOccurrences l ↔ x ∈ l) from fun x => H l.length l le_rfl x
  intro N
  induction N with
  | zero =>
    intro l hl x
    have : l = [] := by
      cases l with
      | nil => rfl
      | cons a t => simp at hl
    subst this
    rw [firstOccurrences]
  | succ N ih =>
    intro l hl x
    cases l with
    | nil => rw [firstOccurrences]
    | cons y ys =>
      rw [firstOccurrences]
      constructor
      · intro hx
        rcases List.mem_cons.mp hx with rfl | hx
        · exact List.mem_cons_self _ _
        · have := (ih (ys.filter (fun z => z ≠ y))
            (by
              have := List.length_filter_le (fun z => z ≠ y) ys
              simp at hl
              omega) x).mp hx
          exact List.mem_cons_of_mem _ (List.mem_of_mem_filter this)
      · intro hx
        rcases List.mem_cons.mp hx with rfl | hx
        · exact List.mem_cons_self _ _
        · by_cases hxy : x = y
          · subst hxy
            exact List.mem_cons_self _ _
          · apply List.mem_cons_of_mem
            apply (ih (ys.filter (fun z => z ≠ y))
              (by
                have := List.length_filter_le (fun z => z ≠ y) ys
                simp at hl
                omega) x).mpr
            exact List.mem_filter.mpr ⟨hx, by simpa using hxy⟩

theorem firstOccurrences_nodup : ∀ (l : List ℕ),
    (firstOccurrences l).Nodup := by
  intro l
  suffices H : ∀ N (l : List ℕ), l.length ≤ N →
      (firstOccurrences l).Nodup from H l.length l le_rfl
  intro N
  induction N with
  | zero =>
    intro l hl
    have : l = [] := by
      cases l with
      | nil => rfl
      | cons a t => simp at hl
    subst this
    rw [firstOccurrences]
    exact List.nodup_nil
  | succ N ih =>
    intro l hl
    cases l with
    | nil => rw [firstOccurrences]; exact List.nodup_nil
    | cons y ys =>
      rw [firstOccurrences]
      rw [List.nodup_cons]
      have hlen : (ys.filter (fun z => z ≠ y)).length ≤ N := by
        have := List.length_filter_le (fun z => z ≠ y) ys
        simp at hl
        omega
      refine ⟨?_, ih _ hlen⟩
      intro hy
      have hmem := (firstOccurrences_mem (ys.filter (fun z => z ≠ y)) y).mp hy
      have := List.of_mem_filter hmem
      simp at this

theorem countsList_mem (L : List ℕ) :
    ∀ e ∈ countsList L, e.2 = L.count e.1 ∧ e.1 ∈ L := by
  intro e he
  obtain ⟨v, hv, rfl⟩ := List.mem_map.mp he
  exact ⟨rfl, (firstOccurrences_mem L v).mp hv⟩

theorem mem_countsList (L : List ℕ) (x : ℕ) (hx : x ∈ L) :
    (x, L.count x) ∈ countsList L :=
  List.mem_map.mpr ⟨x, (firstOccurrences_mem L x).mpr hx, rfl⟩

theorem countsList_keys (L : List ℕ) :
    (countsList L).map Prod.fst = firstOccurrences L := by
  rw [countsList, List.map_map]
  exact List.map_id _

theorem sortedLenCounts_perm (L : List ℕ) :
    (sortedLenCounts L).Perm (countsList L) :=
  List.mergeSort_perm _ _

theorem sortedLenCounts_sorted (L : List ℕ) :
    List.Pairwise (fun a b : ℕ × ℕ => a.2 ≤ b.2) (sortedLenCounts L) := by
  have h := @List.sorted_mergeSort (ℕ × ℕ)
    (fun a b => decide (a.2 ≤ b.2))
    (fun a b c hab hbc => by
      simp only [decide_eq_true_eq] at *
      omega)
    (fun a b => by
      simp only [Bool.or_eq_true, decide_eq_true_eq]
      omega) (countsList L)
  exact h.imp (fun hab => by simpa using hab)

theorem sortedLenCounts_length (L : List ℕ) :
    (sortedLenCounts L).length = (firstOccurrences L).length := by
  rw [(sortedLenCounts_perm L).length_eq, countsList, List.length_map]

theorem sortedLenCounts_keys_nodup (L : List ℕ) :
    ((sortedLenCounts L).map Prod.fst).Nodup := by
  have hperm : ((sortedLenCounts L).map Prod.fst).Perm
      ((countsList L).map Prod.fst) := (sortedLenCounts_perm L).map _
  rw [hperm.nodup_iff, countsList_keys]
  exact firstOccurrences_nodup L

/-- The two rarest payload lengths: top1 is a length of minimal
multiplicity, and top2 a length of minimal multiplicity among the rest;
each defaults to 0 when too few distinct lengths exist. -/
def rarestSpec (L : List ℕ) (o1 o2 : Option ℚ) : Prop :=
  (L = [] → o1 = some 0) ∧
  (L ≠ [] → ∃ t1 : ℕ, o1 = some (t1 : ℚ) ∧ t1 ∈ L ∧
    ∀ x ∈ L, L.count t1 ≤ L.count x) ∧
  ((firstOccurrences L).length ≤ 1 → o2 = some 0) ∧
  (2 ≤ (firstOccurrences L).length → ∃ t1 t2 : ℕ, o1 = some (t1 : ℚ) ∧
    o2 = some (t2 : ℚ) ∧ t2 ∈ L ∧ t2 ≠ t1 ∧
    ∀ x ∈ L, x ≠ t1 → L.count t2 ≤ L.count x)

theorem topOf_rarest (L : List ℕ) :
    rarestSpec L (some (top1Of L)) (some (top2Of L)) := by
  refine ⟨?_, ?_, ?_, ?_⟩
  · intro hL
    subst hL
    simp [top1Of, sortedLenCounts, countsList, firstOccurrences]
  · intro hL
    obtain ⟨a, as, ha⟩ := List.exists_cons_of_ne_nil hL
    have hane : sortedLenCounts L ≠ [] := by
      intro hcon
      have hlen0 := sortedLenCounts_length L
      rw [hcon] at hlen0
      have hfe : firstOccurrences L = [] :=
        List.eq_nil_of_length_eq_zero hlen0.symm
      have ha' : a ∈ firstOccurrences L :=
        (firstOccurrences_mem L a).mpr (ha ▸ List.mem_cons_self a as)
      rw [hfe] at ha'
      exact absurd ha' (List.not_mem_nil a)
    obtain ⟨x, xs, hx⟩ := List.exists_cons_of_ne_nil hane
    have htop1 : top1Of L = x.1 := by rw [top1Of, hx]
    have hxmem : x ∈ countsList L :=
      (sortedLenCounts_perm L).mem_iff.mp (hx ▸ List.mem_cons_self x xs)
    obtain ⟨hxc, hxL⟩ := countsList_mem L x hxmem
    refine ⟨x.1, by rw [htop1], hxL, ?_⟩
    intro l hl
    have hpair : (l, L.count l) ∈ sortedLenCounts L :=
      (sortedLenCounts_perm L).mem_iff.mpr (mem_countsList L l hl)
    rw [hx] at hpair
    rcases List.mem_cons.mp hpair with heq | hmem
    · have h2 : x.2 = L.count l := by
        have := congrArg Prod.snd heq
        simpa using this.symm
      rw [← hxc]
      omega
    · have hsorted := sortedLenCounts_sorted L
      rw [hx] at hsorted
      have := (List.pairwise_cons.mp hsorted).1 _ hmem
      rw [← hxc]
      simpa using this
  · intro hlen
    have hl1 : (sortedLenCounts L).length ≤ 1 := by
      rw [sortedLenCounts_length]
      exact hlen
    rw [top2Of]
    cases hx : sortedLenCounts L with
    | nil => rfl
    | cons x xs =>
      cases hxs : xs with
      | nil => rfl
      | cons y ys =>
        rw [hx, hxs] at hl1
        simp at hl1
  · intro hlen
    have hlen2 : 2 ≤ (sortedLenCounts L).length := by
      rw [sortedLenCounts_length]
      exact hlen
    cases hx : sortedLenCounts L with
    | nil => rw [hx] at hlen2; simp at hlen2
    | cons x xs =>
      cases hxs : xs with
      | nil => rw [hx, hxs] at hlen2; simp at hlen2
      | cons y ys =>
        subst hxs
        have htop1 : top1Of L = x.1 := by rw [top1Of, hx]
        have htop2 : top2Of L = y.1 := by rw [top2Of, hx]
        have hymem : y ∈ countsList L :=
          (sortedLenCounts_perm L).mem_iff.mp
            (hx ▸ List.mem_cons_of_mem x (List.mem_cons_self y ys))
        obtain ⟨hyc, hyL⟩ := countsList_mem L y hymem
        have hnodup := sortedLenCounts_keys_nodup L
        rw [hx] at hnodup
        simp only [List.map_cons, List.nodup_cons, List.mem_cons,
          List.mem_map] at hnodup
        have hxyne : y.1 ≠ x.1 := by
          intro hcon
          exact hnodup.1 (Or.inl hcon.symm)
        refine ⟨x.1, y.1, by rw [htop1], by rw [htop2], hyL, hxyne, ?_⟩
        intro l hl hlx
        have hpair : (l, L.count l) ∈ sortedLenCounts L :=
          (sortedLenCounts_perm L).mem_iff.mpr (mem_countsList L l hl)
        rw [hx] at hpair
        rcases List.mem_cons.mp hpair with heq | hmem
        · have := congrArg Prod.fst heq
          simp at this
          exact absurd this hlx
        · have hsorted := sortedLenCounts_sorted L
          rw [hx] at hsorted
          have htail := (List.pairwise_cons.mp hsorted).2
          rcases List.mem_cons.mp hmem with heq | hmem2
          · have := congrArg Prod.snd heq
            simp at this
            rw [← hyc, this]
          · have := (List.pairwise_cons.mp htail).1 _ hmem2
            rw [← hyc]
            simpa using this

theorem lookup_binMap_none (bins : List ((ℕ × ℕ) × ℕ))
    (kind suffix key : String) (f : ((ℕ × ℕ) × ℕ) → ℚ)
    (h : ∀ k ∈ bins.map Prod.fst, binKeyStr k kind suffix ≠ key) :
    List.lookup key
      (bins.map (fun e => (binKeyStr e.1 kind suffix, f e))) = none := by
  induction bins with
  | nil => rfl
  | cons b bs ih =>
    simp only [List.map_cons, List.lookup_cons]
    have hb : binKeyStr b.1 kind suffix ≠ key := h b.1 (by simp)
    have hbeq : (key == binKeyStr b.1 kind suffix) = false := by
      simp only [beq_eq_false_iff_ne, ne_eq]
      exact fun hcon => hb hcon.symm
    rw [hbeq]
    apply ih
    intro k hk
    exact h k (List.mem_cons_of_mem _ hk)

theorem emitTallied_inv (suffix : String) (e i ib tOn tb pOn : Bool)
    (n : ℕ) (t : DirTally) (l : List (String × ℚ))
    (hok : emitTallied suffix e i ib tOn tb pOn n t = .ok l) :
    l = (if e then
          [("mean_entropy_" ++ suffix, ratMean t.entropies),
           ("max_entropy_" ++ suffix, listMaxQ t.entropies),
           ("min_entropy_" ++ suffix, listMinQ t.entropies)]
         else []) ++
        (if i then
          [("mean_interval_" ++ suffix,
            if t.intervals = [] then 1000000 else ratMean t.intervals)]
         else []) ++
        (if ib then
          t.intervalBins.map (fun e =>
            (binKeyStr e.1 "interval" suffix, (e.2 : ℚ) / (n : ℚ)))
         else []) ++
        (if tOn then
          [("top1_tcp_len_" ++ suffix, (top1Of t.payloadLengths : ℚ)),
           ("top2_tcp_len_" ++ suffix, (top2Of t.payloadLengths : ℚ)),
           ("mean_tcp_len_" ++ suffix,
            ratMean (t.payloadLengths.map (fun m => (m : ℚ))))]
         else []) ++
        (if tb then
          t.lenBins.map (fun e =>
            (binKeyStr e.1 "len" suffix, (e.2 : ℚ) / (n : ℚ)))
         else []) ++
        (if pOn then
          [("push_ratio_" ++ suffix,
            if 0 < t.ack then (t.psh : ℚ) / (t.ack : ℚ) else 0)]
         else []) := by
  rw [emitTallied] at hok
  by_cases hc : (e = true ∧ t.entropies = [])
  · rw [if_pos hc] at hok
    exact absurd hok (by simp)
  · rw [if_neg hc] at hok
    injection hok with h
    rw [← h]

theorem lookup_cons_ne {β : Type} (k a : String) (v : β)
    (es : List (String × β)) (h : a ≠ k) :
    List.lookup k ((a, v) :: es) = List.lookup k es := by
  rw [List.lookup_cons]
  have hbeq : (k == a) = false := by
    simp only [beq_eq_false_iff_ne, ne_eq]
    exact fun hcon => h hcon.symm
  rw [hbeq]

theorem lookup_cons_eq {β : Type} (k : String) (v : β)
    (es : List (String × β)) : List.lookup k ((k, v) :: es) = some v := by
  rw [List.lookup_cons]
  rw [show (k == k) = true from beq_self_eq_true k]

theorem lookup_ite_nil_none {β : Type} (c : Bool) (l : List (String × β))
    (k : String) (h : List.lookup k l = none) :
    List.lookup k (if c = true then l else []) = none := by
  cases c
  · rfl
  · simpa using h

theorem tcpPayloadLengths_nil_of_no_tcp (ps : List Packet)
    (h : ∀ p ∈ ps, p.tcp_info = none) : tcpPayloadLengths ps = [] := by
  rw [tcpPayloadLengths, List.filterMap_eq_nil_iff]
  intro p hp
  rw [h p hp]
  rfl

theorem dirTally_payloadLengths_any (be : List ℕ → ℚ)
    (eOn tOn tbOn pOn : Bool) (peerOf clientOf : Packet → String)
    (ps : List Packet) (s t : DirTally)
    (h : dirTally be eOn tOn tbOn pOn peerOf clientOf ps s = .ok t) :
    t.payloadLengths = s.payloadLengths ++
      (if tOn then tcpPayloadLengths ps else []) := by
  cases eOn with
  | true =>
    exact dirTally_payloadLengths be tOn tbOn pOn peerOf clientOf ps s t h
  | false =>
    by_cases htcp : ∃ p ∈ ps, p.tcp_info.isSome
    · rw [dirTally_name_error be tOn tbOn pOn peerOf clientOf ps s htcp]
        at h
      exact absurd h (by simp)
    · push_neg at htcp
      have hnone : ∀ p ∈ ps, p.tcp_info = none := fun p hp =>
        Option.not_isSome_iff_eq_none.mp (by simpa using htcp p hp)
      rw [dirTally_skip_all be false tOn tbOn pOn peerOf clientOf ps s
        hnone] at h
      injection h with h
      subst h
      rw [tcpPayloadLengths_nil_of_no_tcp ps hnone]
      cases tOn <;> simp

/-- Lookup of the top1/top2 keys in the tallied stats of a direction,
given that the other feature groups of that direction use different key
strings (discharged by computation at each concrete suffix). -/
theorem emitTallied_lookup_tops (suffix : String) (e i ib tb pOn : Bool)
    (n : ℕ) (t : DirTally) (l : List (String × ℚ))
    (hok : emitTallied suffix e i ib true tb pOn n t = .ok l)
    (hIB : t.intervalBins.map Prod.fst = initIntervalBins.map Prod.fst)
    (hA1 : ∀ s ∈ ["mean_entropy_" ++ suffix, "max_entropy_" ++ suffix,
        "min_entropy_" ++ suffix, "mean_interval_" ++ suffix],
      s ≠ "top1_tcp_len_" ++ suffix ∧ s ≠ "top2_tcp_len_" ++ suffix)
    (hA2 : ∀ k ∈ initIntervalBins.map Prod.fst,
      binKeyStr k "interval" suffix ≠ "top1_tcp_len_" ++ suffix ∧
      binKeyStr k "interval" suffix ≠ "top2_tcp_len_" ++ suffix)
    (hA3 : ("top1_tcp_len_" ++ suffix) ≠ ("top2_tcp_len_" ++ suffix)) :
    List.lookup ("top1_tcp_len_" ++ suffix) l =
      some ((top1Of t.payloadLengths : ℕ) : ℚ) ∧
    List.lookup ("top2_tcp_len_" ++ suffix) l =
      some ((top2Of t.payloadLengths : ℕ) : ℚ) := by
  have hl := emitTallied_inv suffix e i ib true tb pOn n t l hok
  subst hl
  have hbins1 : List.lookup ("top1_tcp_len_" ++ suffix)
      (t.intervalBins.map (fun e =>
        (binKeyStr e.1 "interval" suffix, (e.2 : ℚ) / (n : ℚ)))) = none := by
    apply lookup_binMap_none
    rw [hIB]
    exact fun k hk => (hA2 k hk).1
  have hbins2 : List.lookup ("top2_tcp_len_" ++ suffix)
      (t.intervalBins.map (fun e =>
        (binKeyStr e.1 "interval" suffix, (e.2 : ℚ) / (n : ℚ)))) = none := by
    apply lookup_binMap_none
    rw [hIB]
    exact fun k hk => (hA2 k hk).2
  constructor
  · simp only [List.append_assoc, List.lookup_append]
    have h1 : List.lookup ("top1_tcp_len_" ++ suffix)
        (if e = true then
          [("mean_entropy_" ++ suffix, ratMean t.entropies),
           ("max_entropy_" ++ suffix, listMaxQ t.entropies),
           ("min_entropy_" ++ suffix, listMinQ t.entropies)]
         else []) = none := by
      apply lookup_ite_nil_none
      rw [lookup_cons_ne _ _ _ _ (hA1 _ (by simp)).1]
      rw [lookup_cons_ne _ _ _ _ (hA1 _ (by simp)).1]
      rw [lookup_cons_ne _ _ _ _ (hA1 _ (by simp)).1]
      rfl
    have h2 : List.lookup ("top1_tcp_len_" ++ suffix)
        (if i = true then
          [("mean_interval_" ++ suffix,
            if t.intervals = [] then 1000000 else ratMean t.intervals)]
         else []) = none := by
      apply lookup_ite_nil_none
      rw [lookup_cons_ne _ _ _ _ (hA1 _ (by simp)).1]
      rfl
    have h3 : List.lookup ("top1_tcp_len_" ++ suffix)
        (if ib = true then
          t.intervalBins.map (fun e =>
            (binKeyStr e.1 "interval" suffix, (e.2 : ℚ) / (n : ℚ)))
         else []) = none := lookup_ite_nil_none _ _ _ hbins1
    rw [h1, h2, h3]
    simp only [Option.none_or]
    simp only [eq_self_iff_true, if_true]
    rw [lookup_cons_eq]
    rfl
  · simp only [List.append_assoc, List.lookup_append]
    have h1 : List.lookup ("top2_tcp_len_" ++ suffix)
        (if e = true then
          [("mean_entropy_" ++ suffix, ratMean t.entropies),
           ("max_entropy_" ++ suffix, listMaxQ t.entropies),
           ("min_entropy_" ++ suffix, listMinQ t.entropies)]
         else []) = none := by
      apply lookup_ite_nil_none
      rw [lookup_cons_ne _ _ _ _ (hA1 _ (by simp)).2]
      rw [lookup_cons_ne _ _ _ _ (hA1 _ (by simp)).2]
      rw [lookup_cons_ne _ _ _ _ (hA1 _ (by simp)).2]
      rfl
    have h2 : List.lookup ("top2_tcp_len_" ++ suffix)
        (if i = true then
          [("mean_interval_" ++ suffix,
            if t.intervals = [] then 1000000 else ratMean t.intervals)]
         else []) = none := by
      apply lookup_ite_nil_none
      rw [lookup_cons_ne _ _ _ _ (hA1 _ (by simp)).2]
      rfl
    have h3 : List.lookup ("top2_tcp_len_" ++ suffix)
        (if ib = true then
          t.intervalBins.map (fun e =>
            (binKeyStr e.1 "interval" suffix, (e.2 : ℚ) / (n : ℚ)))
         else []) = none := lookup_ite_nil_none _ _ _ hbins2
    rw [h1, h2, h3]
    simp only [Option.none_or]
    simp only [eq_self_iff_true, if_true]
    rw [lookup_cons_ne _ _ _ _ hA3]
    rw [lookup_cons_eq]
    rfl

/-- Lookup of a key foreign to a direction (such as a down-suffixed key in
the up stats) in the tallied stats of that direction yields nothing. -/
theorem emitTallied_lookup_none (suffix key : String)
    (e i ib tN tb pOn : Bool) (n : ℕ) (t : DirTally)
    (l : List (String × ℚ))
    (hok : emitTallied suffix e i ib tN tb pOn n t = .ok l)
    (hIB : t.intervalBins.map Prod.fst = initIntervalBins.map Prod.fst)
    (hLB : t.lenBins.map Prod.fst = initLenBins.map Prod.fst)
    (h1 : ∀ s ∈ ["mean_entropy_" ++ suffix, "max_entropy_" ++ suffix,
        "min_entropy_" ++ suffix, "mean_interval_" ++ suffix,
        "top1_tcp_len_" ++ suffix, "top2_tcp_len_" ++ suffix,
        "mean_tcp_len_" ++ suffix, "push_ratio_" ++ suffix], s ≠ key)
    (h2 : ∀ k ∈ initIntervalBins.map Prod.fst,
      binKeyStr k "interval" suffix ≠ key)
    (h3 : ∀ k ∈ initLenBins.map Prod.fst,
      binKeyStr k "len" suffix ≠ key) :
    List.lookup key l = none := by
  have hl := emitTallied_inv suffix e i ib tN tb pOn n t l hok
  subst hl
  simp only [List.append_assoc, List.lookup_append]
  have hg1 : List.lookup key
      (if e = true then
        [("mean_entropy_" ++ suffix, ratMean t.entropies),
         ("max_entropy_" ++ suffix, listMaxQ t.entropies),
         ("min_entropy_" ++ suffix, listMinQ t.entropies)]
       else []) = none := by
    apply lookup_ite_nil_none
    rw [lookup_cons_ne _ _ _ _ (h1 _ (by simp))]
    rw [lookup_cons_ne _ _ _ _ (h1 _ (by simp))]
    rw [lookup_cons_ne _ _ _ _ (h1 _ (by simp))]
    rfl
  have hg2 : List.lookup key
      (if i = true then
        [("mean_interval_" ++ suffix,
          if t.intervals = [] then 1000000 else ratMean t.intervals)]
       else []) = none := by
    apply lookup_ite_nil_none
    rw [lookup_cons_ne _ _ _ _ (h1 _ (by simp))]
    rfl
  have hg3 : List.lookup key
      (if ib = true then
        t.intervalBins.map (fun e =>
          (binKeyStr e.1 "interval" suffix, (e.2 : ℚ) / (n : ℚ)))
       else []) = none := by
    apply lookup_ite_nil_none
    apply lookup_binMap_none
    rw [hIB]
    exact h2
  have hg4 : List.lookup key
      (if tN = true then
        [("top1_tcp_len_" ++ suffix, (top1Of t.payloadLengths : ℚ)),
         ("top2_tcp_len_" ++ suffix, (top2Of t.payloadLengths : ℚ)),
         ("mean_tcp_len_" ++ suffix,
          ratMean (t.payloadLengths.map (fun m => (m : ℚ))))]
       else []) = none := by
    apply lookup_ite_nil_none
    rw [lookup_cons_ne _ _ _ _ (h1 _ (by simp))]
    rw [lookup_cons_ne _ _ _ _ (h1 _ (by simp))]
    rw [lookup_cons_ne _ _ _ _ (h1 _ (by simp))]
    rfl
  have hg5 : List.lookup key
      (if tb = true then
        t.lenBins.map (fun e =>
          (binKeyStr e.1 "len" suffix, (e.2 : ℚ) / (n : ℚ)))
       else []) = none := by
    apply lookup_ite_nil_none
    apply lookup_binMap_none
    rw [hLB]
    exact h3
  have hg6 : List.lookup key
      (if pOn = true then
        [("push_ratio_" ++ suffix,
          if 0 < t.ack then (t.psh : ℚ) / (t.ack : ℚ) else 0)]
       else []) = none := by
    apply lookup_ite_nil_none
    rw [lookup_cons_ne _ _ _ _ (h1 _ (by simp))]
    rfl
  rw [hg1, hg2, hg3, hg4, hg5, hg6]
  rfl

/-- Lookup of a key foreign to a direction in the default stats of that
direction yields nothing. -/
theorem emitDefaults_lookup_none (suffix key : String)
    (e i ib tN tb pOn : Bool)
    (h1 : ∀ s ∈ ["mean_entropy_" ++ suffix, "max_entropy_" ++ suffix,
        "min_entropy_" ++ suffix, "mean_interval_" ++ suffix,
        "top1_tcp_len_" ++ suffix, "top2_tcp_len_" ++ suffix,
        "mean_tcp_len_" ++ suffix, "push_ratio_" ++ suffix], s ≠ key)
    (h2 : ∀ k ∈ initIntervalBins.map Prod.fst,
      binKeyStr k "interval" suffix ≠ key)
    (h3 : ∀ k ∈ initLenBins.map Prod.fst,
      binKeyStr k "len" suffix ≠ key) :
    List.lookup key (emitDefaults suffix e i ib tN tb pOn) = none := by
  rw [emitDefaults]
  simp only [List.append_assoc, List.lookup_append]
  have hg1 : List.lookup key
      (if e = true then
        [("mean_entropy_" ++ suffix, (0 : ℚ)),
         ("max_entropy_" ++ suffix, 0), ("min_entropy_" ++ suffix, 0)]
       else []) = none := by
    apply lookup_ite_nil_none
    rw [lookup_cons_ne _ _ _ _ (h1 _ (by simp))]
    rw [lookup_cons_ne _ _ _ _ (h1 _ (by simp))]
    rw [lookup_cons_ne _ _ _ _ (h1 _ (by simp))]
    rfl
  have hg2 : List.lookup key
      (if i = true then [("mean_interval_" ++ suffix, (1000000 : ℚ))]
       else []) = none := by
    apply lookup_ite_nil_none
    rw [lookup_cons_ne _ _ _ _ (h1 _ (by simp))]
    rfl
  have hg3 : List.lookup key
      (if ib = true then
        initIntervalBins.map (fun e =>
          (binKeyStr e.1 "interval" suffix, (0 : ℚ)))
       else []) = none := by
    apply lookup_ite_nil_none
    exact lookup_binMap_none _ _ _ _ _ h2
  have hg4 : List.lookup key
      (if tN = true then
        [("top1_tcp_len_" ++ suffix, (0 : ℚ)),
         ("top2_tcp_len_" ++ suffix, 0), ("mean_tcp_len_" ++ suffix, 0)]
       else []) = none := by
    apply lookup_ite_nil_none
    rw [lookup_cons_ne _ _ _ _ (h1 _ (by simp))]
    rw [lookup_cons_ne _ _ _ _ (h1 _ (by simp))]
    rw [lookup_cons_ne _ _ _ _ (h1 _ (by simp))]
    rfl
  have hg5 : List.lookup key
      (if tb = true then
        initLenBins.map (fun e => (binKeyStr e.1 "len" suffix, (0 : ℚ)))
       else []) = none := by
    apply lookup_ite_nil_none
    exact lookup_binMap_none _ _ _ _ _ h3
  have hg6 : List.lookup key
      (if pOn = true then [("push_ratio_" ++ suffix, (0 : ℚ))]
       else []) = none := by
    apply lookup_ite_nil_none
    rw [lookup_cons_ne _ _ _ _ (h1 _ (by simp))]
    rfl
  rw [hg1, hg2, hg3, hg4, hg5, hg6]
  rfl

/-- A window with a single downstream TCP packet toward the client
subnet 10.0.0.1. -/
def ceDownPkt : Packet := mkTcpPacket 0 "99.9.9.9" "10.0.0.1" [7, 7, 7] 5 false

/-- The single-client subnet list used by concrete window examples. -/
def ceClients : List (String → Bool) :=
  [fun s => decide (s = "10.0.0.1")]

/-- Witness for C9: selecting only TCP_LEN on a window with one downstream
TCP packet raises the NameError. -/
theorem get_window_stats_entropy_off_name_error_witness :
    get_window_stats (fun _ => 0) [ceDownPkt] ceClients
      (some [FeatureTag.tcpLen]) =
      .error "NameError: name packet_tcp is not defined" :=
  get_window_stats_entropy_off_name_error (fun _ => 0) [ceDownPkt] ceClients
    [FeatureTag.tcpLen] (by simp) (by simp)
    (Or.inr (by refine ⟨by decide, ceDownPkt, by decide, by decide⟩))


/-- A key not used by any upstream feature entry is absent from the
upstream stats half, whether tallied or defaulted. -/
theorem gwsUp_lookup_foreign_none (be : List ℕ → ℚ)
    (e i ib tN tb pOn : Bool) (up : List Packet)
    (x : List (String × ℚ) × DirTally) (key : String)
    (hup : gwsUp be e i ib tN tb pOn up = .ok x)
    (h1 : ∀ s ∈ ["mean_entropy_up", "max_entropy_up", "min_entropy_up",
        "mean_interval_up", "top1_tcp_len_up", "top2_tcp_len_up",
        "mean_tcp_len_up", "push_ratio_up"], s ≠ key)
    (h2 : ∀ k ∈ initIntervalBins.map Prod.fst,
      binKeyStr k "interval" "up" ≠ key)
    (h3 : ∀ k ∈ initLenBins.map Prod.fst, binKeyStr k "len" "up" ≠ key) :
    List.lookup key x.1 = none := by
  rw [gwsUp] at hup
  by_cases hlen : 1 < up.length
  · rw [if_pos hlen] at hup
    cases htal : dirTally be e tN tb pOn Packet.dst Packet.src up
        (initTally [] []) with
    | error m =>
      rw [htal] at hup
      exact absurd hup (by simp [Except.bind])
    | ok tU =>
      rw [htal] at hup
      simp only [Except.bind] at hup
      cases hemit : emitTallied "up" e i ib tN tb pOn up.length tU with
      | error m =>
        rw [hemit] at hup
        exact absurd hup (by simp [Except.map])
      | ok su =>
        rw [hemit] at hup
        simp only [Except.map] at hup
        injection hup with hx
        have hx1 : x.1 = su := by rw [← hx]
        rw [hx1]
        have hkeys := dirTally_intervalBins_keys be e tN tb pOn Packet.dst
          Packet.src up (initTally [] []) tU htal
        exact emitTallied_lookup_none "up" key e i ib tN tb pOn up.length
          tU su hemit (by rw [hkeys.1]; rfl) (by rw [hkeys.2]; rfl) h1 h2 h3
  · rw [if_neg hlen] at hup
    injection hup with hx
    have hx1 : x.1 = emitDefaults "up" e i ib tN tb pOn := by rw [← hx]
    rw [hx1]
    exact emitDefaults_lookup_none "up" key e i ib tN tb pOn h1 h2 h3

/-- C7: whenever get_window_stats succeeds with the TCP_LEN feature
enabled, and a direction has enough packets to be tallied, the emitted
top1_tcp_len is a TCP payload length of minimal multiplicity in that
direction and top2_tcp_len a minimal one among the remaining lengths,
each defaulting to 0 when too few distinct lengths exist. -/
theorem get_window_stats_top_tcp_lengths (be : List ℕ → ℚ)
    (win : List Packet) (clients : List (String → Bool))
    (sel : Option (List FeatureTag))
    (r : List (String × ℚ) × List String × List String)
    (hok : get_window_stats be win clients sel = .ok r)
    (ht : featEnabled sel FeatureTag.tcpLen = true) :
    (1 < (packetsUp clients win).length →
      rarestSpec (tcpPayloadLengths (packetsUp clients win))
        (List.lookup "top1_tcp_len_up" r.1)
        (List.lookup "top2_tcp_len_up" r.1)) ∧
    (0 < (packetsDown clients win).length →
      rarestSpec (tcpPayloadLengths (packetsDown clients win))
        (List.lookup "top1_tcp_len_down" r.1)
        (List.lookup "top2_tcp_len_down" r.1)) := by
  cases hcl : clients.isEmpty with
  | true =>
    have hc : clients = [] := by
      cases clients with
      | nil => rfl
      | cons a as => simp [List.isEmpty] at hcl
    subst hc
    constructor <;> intro hlen <;>
      simp [packetsUp, packetsDown] at hlen
  | false =>
    rw [get_window_stats] at hok
    rw [if_neg (by simp [hcl])] at hok
    cases hup : gwsUp be (featEnabled sel FeatureTag.entropy)
        (featEnabled sel FeatureTag.interval)
        (featEnabled sel FeatureTag.intervalBins)
        (featEnabled sel FeatureTag.tcpLen)
        (featEnabled sel FeatureTag.tcpLenBins)
        (featEnabled sel FeatureTag.psh) (packetsUp clients win) with
    | error m =>
      rw [hup] at hok
      exact absurd hok (by simp [Except.bind])
    | ok x =>
      rw [hup] at hok
      simp only [Except.bind] at hok
      cases hdn : gwsDown be (featEnabled sel FeatureTag.entropy)
          (featEnabled sel FeatureTag.interval)
          (featEnabled sel FeatureTag.intervalBins)
          (featEnabled sel FeatureTag.tcpLen)
          (featEnabled sel FeatureTag.tcpLenBins)
          (featEnabled sel FeatureTag.psh) (packetsDown clients win)
          x.2 with
      | error m =>
        rw [hdn] at hok
        exact absurd hok (by simp [Except.bind])
      | ok y =>
        rw [hdn] at hok
        simp only [Except.bind] at hok
        injection hok with hr
        have hr1 : r.1 = ("up_down_ratio",
            gwsUdr (packetsUp clients win) (packetsDown clients win)) ::
            x.1 ++ y.1 := by rw [← hr]
        constructor
        · intro h2
          rw [gwsUp, if_pos h2] at hup
          cases htal : dirTally be (featEnabled sel FeatureTag.entropy)
              (featEnabled sel FeatureTag.tcpLen)
              (featEnabled sel FeatureTag.tcpLenBins)
              (featEnabled sel FeatureTag.psh) Packet.dst Packet.src
              (packetsUp clients win) (initTally [] []) with
          | error m =>
            rw [htal] at hup
            exact absurd hup (by simp [Except.bind])
          | ok tU =>
            rw [htal] at hup
            simp only [Except.bind] at hup
            cases hemit : emitTallied "up"
                (featEnabled sel FeatureTag.entropy)
                (featEnabled sel FeatureTag.interval)
                (featEnabled sel FeatureTag.intervalBins)
                (featEnabled sel FeatureTag.tcpLen)
                (featEnabled sel FeatureTag.tcpLenBins)
                (featEnabled sel FeatureTag.psh)
                (packetsUp clients win).length tU with
            | error m =>
              rw [hemit] at hup
              exact absurd hup (by simp [Except.map])
            | ok su =>
              rw [hemit] at hup
              simp only [Except.map] at hup
              injection hup with hx
              have hx1 : x.1 = su := by rw [← hx]
              have hkeys := dirTally_intervalBins_keys be
                (featEnabled sel FeatureTag.entropy)
                (featEnabled sel FeatureTag.tcpLen)
                (featEnabled sel FeatureTag.tcpLenBins)
                (featEnabled sel FeatureTag.psh) Packet.dst Packet.src
                (packetsUp clients win) (initTally [] []) tU htal
              have hpl2 : tU.payloadLengths =
                  tcpPayloadLengths (packetsUp clients win) := by
                rw [dirTally_payloadLengths_any be
                  (featEnabled sel FeatureTag.entropy)
                  (featEnabled sel FeatureTag.tcpLen)
                  (featEnabled sel FeatureTag.tcpLenBins)
                  (featEnabled sel FeatureTag.psh) Packet.dst Packet.src
                  (packetsUp clients win) (initTally [] []) tU htal, ht]
                simp [initTally]
              obtain ⟨hl1, hl2⟩ := emitTallied_lookup_tops "up"
                (featEnabled sel FeatureTag.entropy)
                (featEnabled sel FeatureTag.interval)
                (featEnabled sel FeatureTag.intervalBins)
                (featEnabled sel FeatureTag.tcpLenBins)
                (featEnabled sel FeatureTag.psh)
                (packetsUp clients win).length tU su (ht ▸ hemit)
                (by rw [hkeys.1]; rfl) (by decide) (by decide) (by decide)
              rw [show ("top1_tcp_len_" ++ "up" : String) =
                "top1_tcp_len_up" from rfl] at hl1
              rw [show ("top2_tcp_len_" ++ "up" : String) =
                "top2_tcp_len_up" from rfl] at hl2
              rw [hr1, hx1]
              simp only [List.cons_append]
              rw [lookup_cons_ne "top1_tcp_len_up" "up_down_ratio" _ _ (by decide)]
              rw [lookup_cons_ne "top2_tcp_len_up" "up_down_ratio" _ _ (by decide)]
              simp only [List.lookup_append]
              rw [hl1, hl2]
              simp only [Option.or_some]
              rw [hpl2]
              exact topOf_rarest (tcpPayloadLengths (packetsUp clients win))
        · intro h0
          rw [gwsDown, if_pos h0] at hdn
          cases htal : dirTally be (featEnabled sel FeatureTag.entropy)
              (featEnabled sel FeatureTag.tcpLen)
              (featEnabled sel FeatureTag.tcpLenBins)
              (featEnabled sel FeatureTag.psh) Packet.src Packet.dst
              (packetsDown clients win)
              (initTally x.2.ips x.2.clientIpsSeen) with
          | error m =>
            rw [htal] at hdn
            exact absurd hdn (by simp [Except.bind])
          | ok tD =>
            rw [htal] at hdn
            simp only [Except.bind] at hdn
            cases hemit : emitTallied "down"
                (featEnabled sel FeatureTag.entropy)
                (featEnabled sel FeatureTag.interval)
                (featEnabled sel FeatureTag.intervalBins)
                (featEnabled sel FeatureTag.tcpLen)
                (featEnabled sel FeatureTag.tcpLenBins)
                (featEnabled sel FeatureTag.psh)
                (packetsDown clients win).length tD with
            | error m =>
              rw [hemit] at hdn
              exact absurd hdn (by simp [Except.map])
            | ok sd =>
              rw [hemit] at hdn
              simp only [Except.map] at hdn
              injection hdn with hy
              have hy1 : y.1 = sd := by rw [← hy]
              have hkeysD := dirTally_intervalBins_keys be
                (featEnabled sel FeatureTag.entropy)
                (featEnabled sel FeatureTag.tcpLen)
                (featEnabled sel FeatureTag.tcpLenBins)
                (featEnabled sel FeatureTag.psh) Packet.src Packet.dst
                (packetsDown clients win)
                (initTally x.2.ips x.2.clientIpsSeen) tD htal
              have hplD : tD.payloadLengths =
                  tcpPayloadLengths (packetsDown clients win) := by
                rw [dirTally_payloadLengths_any be
                  (featEnabled sel FeatureTag.entropy)
                  (featEnabled sel FeatureTag.tcpLen)
                  (featEnabled sel FeatureTag.tcpLenBins)
                  (featEnabled sel FeatureTag.psh) Packet.src Packet.dst
                  (packetsDown clients win)
                  (initTally x.2.ips x.2.clientIpsSeen) tD htal, ht]
                simp [initTally]
              obtain ⟨hl1, hl2⟩ := emitTallied_lookup_tops "down"
                (featEnabled sel FeatureTag.entropy)
                (featEnabled sel FeatureTag.interval)
                (featEnabled sel FeatureTag.intervalBins)
                (featEnabled sel FeatureTag.tcpLenBins)
                (featEnabled sel FeatureTag.psh)
                (packetsDown clients win).length tD sd (ht ▸ hemit)
                (by rw [hkeysD.1]; rfl) (by decide) (by decide) (by decide)
              rw [show ("top1_tcp_len_" ++ "down" : String) =
                "top1_tcp_len_down" from rfl] at hl1
              rw [show ("top2_tcp_len_" ++ "down" : String) =
                "top2_tcp_len_down" from rfl] at hl2
              have hxn1 : List.lookup "top1_tcp_len_down" x.1 = none :=
                gwsUp_lookup_foreign_none be
                  (featEnabled sel FeatureTag.entropy)
                  (featEnabled sel FeatureTag.interval)
                  (featEnabled sel FeatureTag.intervalBins)
                  (featEnabled sel FeatureTag.tcpLen)
                  (featEnabled sel FeatureTag.tcpLenBins)
                  (featEnabled sel FeatureTag.psh) (packetsUp clients win)
                  x "top1_tcp_len_down" hup (by decide) (by decide)
                  (by decide)
              have hxn2 : List.lookup "top2_tcp_len_down" x.1 = none :=
                gwsUp_lookup_foreign_none be
                  (featEnabled sel FeatureTag.entropy)
                  (featEnabled sel FeatureTag.interval)
                  (featEnabled sel FeatureTag.intervalBins)
                  (featEnabled sel FeatureTag.tcpLen)
                  (featEnabled sel FeatureTag.tcpLenBins)
                  (featEnabled sel FeatureTag.psh) (packetsUp clients win)
                  x "top2_tcp_len_down" hup (by decide) (by decide)
                  (by decide)
              rw [hr1, hy1]
              simp only [List.cons_append]
              rw [lookup_cons_ne "top1_tcp_len_down" "up_down_ratio" _ _ (by decide)]
              rw [lookup_cons_ne "top2_tcp_len_down" "up_down_ratio" _ _ (by decide)]
              simp only [List.lookup_append]
              rw [hxn1, hxn2, hl1, hl2]
              simp only [Option.none_or]
              rw [hplD]
              exact topOf_rarest (tcpPayloadLengths (packetsDown clients win))

/-- The tcp_info record of ceDownPkt. -/
def tcpCD : TCPInfo :=
  { payload := [7, 7, 7], seq := 5,
    flags := ⟨true, false, false, false, false, false⟩ }

/-- The tally after the single downstream packet of the concrete window,
under the zero entropy oracle. -/
def tdDown : DirTally :=
  dirStep (fun _ => 0) true false false Packet.src Packet.dst ceDownPkt
    tcpCD (initTally [] [])

/-- The full result of get_window_stats on the one-downstream-packet
window with ENTROPY and TCP_LEN selected and the zero entropy oracle. -/
def gwsEvalRes : List (String × ℚ) × List String × List String :=
  ([("up_down_ratio", 0),
    ("mean_entropy_up", 0), ("max_entropy_up", 0), ("min_entropy_up", 0),
    ("top1_tcp_len_up", 0), ("top2_tcp_len_up", 0), ("mean_tcp_len_up", 0),
    ("mean_entropy_down", 0), ("max_entropy_down", 0),
    ("min_entropy_down", 0), ("top1_tcp_len_down", 3),
    ("top2_tcp_len_down", 0), ("mean_tcp_len_down", 3)],
   ["99.9.9.9"], ["10.0.0.1"])

theorem gws_eval_down1 :
    get_window_stats (fun _ => 0) [ceDownPkt] ceClients
      (some [FeatureTag.entropy, FeatureTag.tcpLen]) = .ok gwsEvalRes := by
  have hfe : featEnabled (some [FeatureTag.entropy, FeatureTag.tcpLen])
      FeatureTag.entropy = true := rfl
  have hfi : featEnabled (some [FeatureTag.entropy, FeatureTag.tcpLen])
      FeatureTag.interval = false := rfl
  have hfib : featEnabled (some [FeatureTag.entropy, FeatureTag.tcpLen])
      FeatureTag.intervalBins = false := rfl
  have hft : featEnabled (some [FeatureTag.entropy, FeatureTag.tcpLen])
      FeatureTag.tcpLen = true := rfl
  have hftb : featEnabled (some [FeatureTag.entropy, FeatureTag.tcpLen])
      FeatureTag.tcpLenBins = false := rfl
  have hfp : featEnabled (some [FeatureTag.entropy, FeatureTag.tcpLen])
      FeatureTag.psh = false := rfl
  have hup0 : packetsUp ceClients [ceDownPkt] = [] := rfl
  have hdown0 : packetsDown ceClients [ceDownPkt] = [ceDownPkt] := rfl
  rw [get_window_stats, if_neg (by decide)]
  rw [hfe, hfi, hfib, hft, hftb, hfp, hup0, hdown0]
  rw [gwsUp, if_neg (by decide)]
  simp only [Except.bind]
  rw [gwsDown, if_pos (by decide)]
  rw [show (initTally [] []).ips = [] from rfl,
    show (initTally [] []).clientIpsSeen = [] from rfl]
  rw [dirTally_cons_some (fun _ => 0) true false false Packet.src
    Packet.dst ceDownPkt tcpCD [] (initTally [] []) rfl]
  rw [show dirTally (fun _ => 0) true true false false Packet.src
    Packet.dst [] (dirStep (fun _ => 0) true false false Packet.src
      Packet.dst ceDownPkt tcpCD (initTally [] [])) =
    .ok tdDown from rfl]
  simp only [Except.bind]
  have hent : tdDown.entropies = [0] := rfl
  rw [emitTallied, if_neg (by rw [hent]; simp)]
  simp only [Except.map, Except.bind]
  have h1 : ratMean tdDown.entropies = 0 := by
    rw [hent]; norm_num [ratMean]
  have h2 : listMaxQ tdDown.entropies = 0 := by rw [hent]; rfl
  have h3 : listMinQ tdDown.entropies = 0 := by rw [hent]; rfl
  have hpl : tdDown.payloadLengths = [3] := rfl
  have h4 : (top1Of tdDown.payloadLengths : ℚ) = 3 := by
    rw [hpl]
    norm_num [top1Of, sortedLenCounts, countsList, firstOccurrences,
      List.mergeSort]
  have h5 : (top2Of tdDown.payloadLengths : ℚ) = 0 := by
    rw [hpl]
    norm_num [top2Of, sortedLenCounts, countsList, firstOccurrences,
      List.mergeSort]
  have h6 : ratMean (tdDown.payloadLengths.map (fun m => (m : ℚ))) = 3 := by
    rw [hpl]; norm_num [ratMean]
  have h7 : gwsUdr [] [ceDownPkt] = 0 := by
    norm_num [gwsUdr]
  rw [h1, h2, h3, h4, h5, h6, h7]
  rfl

/-- Witness for C7: on the one-downstream-packet window the emitted
top1_tcp_len_down and top2_tcp_len_down satisfy the rarest-length
characterisation. -/
theorem get_window_stats_top_tcp_lengths_witness :
    featEnabled (some [FeatureTag.entropy, FeatureTag.tcpLen])
      FeatureTag.tcpLen = true ∧
    0 < (packetsDown ceClients [ceDownPkt]).length ∧
    rarestSpec (tcpPayloadLengths (packetsDown ceClients [ceDownPkt]))
      (List.lookup "top1_tcp_len_down" gwsEvalRes.1)
      (List.lookup "top2_tcp_len_down" gwsEvalRes.1) :=
  ⟨rfl, by decide,
   (get_window_stats_top_tcp_lengths (fun _ => 0) [ceDownPkt] ceClients
      (some [FeatureTag.entropy, FeatureTag.tcpLen]) gwsEvalRes
      gws_eval_down1 rfl).2 (by decide)⟩

/-- All upstream feature entries of a stats mapping hold their default
values (entropies 0, mean interval 1000000, zero bins, zero top and mean
TCP lengths, zero push ratio), each checked only when its feature is
enabled. -/
def defaultLookupsUp (sel : Option (List FeatureTag))
    (stats : List (String × ℚ)) : Prop :=
  (featEnabled sel FeatureTag.entropy = true →
    List.lookup "mean_entropy_up" stats = some 0 ∧
    List.lookup "max_entropy_up" stats = some 0 ∧
    List.lookup "min_entropy_up" stats = some 0) ∧
  (featEnabled sel FeatureTag.interval = true →
    List.lookup "mean_interval_up" stats = some 1000000) ∧
  (featEnabled sel FeatureTag.intervalBins = true →
    ∀ k ∈ initIntervalBins.map Prod.fst,
      List.lookup (binKeyStr k "interval" "up") stats = some 0) ∧
  (featEnabled sel FeatureTag.tcpLen = true →
    List.lookup "top1_tcp_len_up" stats = some 0 ∧
    List.lookup "top2_tcp_len_up" stats = some 0 ∧
    List.lookup "mean_tcp_len_up" stats = some 0) ∧
  (featEnabled sel FeatureTag.tcpLenBins = true →
    ∀ k ∈ initLenBins.map Prod.fst,
      List.lookup (binKeyStr k "len" "up") stats = some 0) ∧
  (featEnabled sel FeatureTag.psh = true →
    List.lookup "push_ratio_up" stats = some 0)

/-- All downstream feature entries of a stats mapping hold their default
values, each checked only when its feature is enabled. -/
def defaultLookupsDown (sel : Option (List FeatureTag))
    (stats : List (String × ℚ)) : Prop :=
  (featEnabled sel FeatureTag.entropy = true →
    List.lookup "mean_entropy_down" stats = some 0 ∧
    List.lookup "max_entropy_down" stats = some 0 ∧
    List.lookup "min_entropy_down" stats = some 0) ∧
  (featEnabled sel FeatureTag.interval = true →
    List.lookup "mean_interval_down" stats = some 1000000) ∧
  (featEnabled sel FeatureTag.intervalBins = true →
    ∀ k ∈ initIntervalBins.map Prod.fst,
      List.lookup (binKeyStr k "interval" "down") stats = some 0) ∧
  (featEnabled sel FeatureTag.tcpLen = true →
    List.lookup "top1_tcp_len_down" stats = some 0 ∧
    List.lookup "top2_tcp_len_down" stats = some 0 ∧
    List.lookup "mean_tcp_len_down" stats = some 0) ∧
  (featEnabled sel FeatureTag.tcpLenBins = true →
    ∀ k ∈ initLenBins.map Prod.fst,
      List.lookup (binKeyStr k "len" "down") stats = some 0) ∧
  (featEnabled sel FeatureTag.psh = true →
    List.lookup "push_ratio_down" stats = some 0)

theorem emitDefaults_self_lookups_up : ∀ (e i ib tN tb pOn : Bool),
    (e = true →
      List.lookup "mean_entropy_up" (emitDefaults "up" e i ib tN tb pOn) =
        some 0 ∧
      List.lookup "max_entropy_up" (emitDefaults "up" e i ib tN tb pOn) =
        some 0 ∧
      List.lookup "min_entropy_up" (emitDefaults "up" e i ib tN tb pOn) =
        some 0) ∧
    (i = true →
      List.lookup "mean_interval_up" (emitDefaults "up" e i ib tN tb pOn) =
        some 1000000) ∧
    (ib = true →
      ∀ k ∈ initIntervalBins.map Prod.fst,
        List.lookup (binKeyStr k "interval" "up")
          (emitDefaults "up" e i ib tN tb pOn) = some 0) ∧
    (tN = true →
      List.lookup "top1_tcp_len_up" (emitDefaults "up" e i ib tN tb pOn) =
        some 0 ∧
      List.lookup "top2_tcp_len_up" (emitDefaults "up" e i ib tN tb pOn) =
        some 0 ∧
      List.lookup "mean_tcp_len_up" (emitDefaults "up" e i ib tN tb pOn) =
        some 0) ∧
    (tb = true →
      ∀ k ∈ initLenBins.map Prod.fst,
        List.lookup (binKeyStr k "len" "up")
          (emitDefaults "up" e i ib tN tb pOn) = some 0) ∧
    (pOn = true →
      List.lookup "push_ratio_up" (emitDefaults "up" e i ib tN tb pOn) =
        some 0) := by decide

theorem emitDefaults_self_lookups_down : ∀ (e i ib tN tb pOn : Bool),
    (e = true →
      List.lookup "mean_entropy_down"
        (emitDefaults "down" e i ib tN tb pOn) = some 0 ∧
      List.lookup "max_entropy_down"
        (emitDefaults "down" e i ib tN tb pOn) = some 0 ∧
      List.lookup "min_entropy_down"
        (emitDefaults "down" e i ib tN tb pOn) = some 0) ∧
    (i = true →
      List.lookup "mean_interval_down"
        (emitDefaults "down" e i ib tN tb pOn) = some 1000000) ∧
    (ib = true →
      ∀ k ∈ initIntervalBins.map Prod.fst,
        List.lookup (binKeyStr k "interval" "down")
          (emitDefaults "down" e i ib tN tb pOn) = some 0) ∧
    (tN = true →
      List.lookup "top1_tcp_len_down"
        (emitDefaults "down" e i ib tN tb pOn) = some 0 ∧
      List.lookup "top2_tcp_len_down"
        (emitDefaults "down" e i ib tN tb pOn) = some 0 ∧
      List.lookup "mean_tcp_len_down"
        (emitDefaults "down" e i ib tN tb pOn) = some 0) ∧
    (tb = true →
      ∀ k ∈ initLenBins.map Prod.fst,
        List.lookup (binKeyStr k "len" "down")
          (emitDefaults "down" e i ib tN tb pOn) = some 0) ∧
    (pOn = true →
      List.lookup "push_ratio_down"
        (emitDefaults "down" e i ib tN tb pOn) = some 0) := by decide

/-- Every key a downstream direction can emit. -/
def downKeysList : List String :=
  ["mean_entropy_down", "max_entropy_down", "min_entropy_down",
   "mean_interval_down", "top1_tcp_len_down", "top2_tcp_len_down",
   "mean_tcp_len_down", "push_ratio_down"] ++
  (initIntervalBins.map Prod.fst).map
    (fun k => binKeyStr k "interval" "down") ++
  (initLenBins.map Prod.fst).map (fun k => binKeyStr k "len" "down")

/-- No downstream key collides with any upstream key or with
up_down_ratio. -/
theorem downKeys_foreign : ∀ key ∈ downKeysList,
    ("up_down_ratio" : String) ≠ key ∧
    (∀ s ∈ ["mean_entropy_up", "max_entropy_up", "min_entropy_up",
        "mean_interval_up", "top1_tcp_len_up", "top2_tcp_len_up",
        "mean_tcp_len_up", "push_ratio_up"], s ≠ key) ∧
    (∀ k ∈ initIntervalBins.map Prod.fst,
      binKeyStr k "interval" "up" ≠ key) ∧
    (∀ k ∈ initLenBins.map Prod.fst, binKeyStr k "len" "up" ≠ key) := by
  decide

/-- C5 (amended): in get_window_stats with a nonempty client subnet list,
the upstream features all take their default values whenever the window
has at most one upstream packet, and the downstream features all take
their default values whenever the window has no downstream packet; a
single downstream packet is already tallied rather than defaulted, so the
two directions' thresholds differ. -/
theorem get_window_stats_direction_defaults (be : List ℕ → ℚ)
    (win : List Packet) (clients : List (String → Bool))
    (sel : Option (List FeatureTag))
    (r : List (String × ℚ) × List String × List String)
    (hok : get_window_stats be win clients sel = .ok r)
    (hcl : clients.isEmpty = false) :
    ((packetsUp clients win).length ≤ 1 → defaultLookupsUp sel r.1) ∧
    ((packetsDown clients win).length = 0 → defaultLookupsDown sel r.1) := by
  rw [get_window_stats] at hok
  rw [if_neg (by simp [hcl])] at hok
  cases hup : gwsUp be (featEnabled sel FeatureTag.entropy)
      (featEnabled sel FeatureTag.interval)
      (featEnabled sel FeatureTag.intervalBins)
      (featEnabled sel FeatureTag.tcpLen)
      (featEnabled sel FeatureTag.tcpLenBins)
      (featEnabled sel FeatureTag.psh) (packetsUp clients win) with
  | error m =>
    rw [hup] at hok
    exact absurd hok (by simp [Except.bind])
  | ok x =>
    rw [hup] at hok
    simp only [Except.bind] at hok
    cases hdn : gwsDown be (featEnabled sel FeatureTag.entropy)
        (featEnabled sel FeatureTag.interval)
        (featEnabled sel FeatureTag.intervalBins)
        (featEnabled sel FeatureTag.tcpLen)
        (featEnabled sel FeatureTag.tcpLenBins)
        (featEnabled sel FeatureTag.psh) (packetsDown clients win)
        x.2 with
    | error m =>
      rw [hdn] at hok
      exact absurd hok (by simp [Except.bind])
    | ok y =>
      rw [hdn] at hok
      simp only [Except.bind] at hok
      injection hok with hr
      have hr1 : r.1 = ("up_down_ratio",
          gwsUdr (packetsUp clients win) (packetsDown clients win)) ::
          x.1 ++ y.1 := by rw [← hr]
      constructor
      · intro hle
        rw [gwsUp, if_neg (by omega)] at hup
        injection hup with hx
        have hx1 : x.1 = emitDefaults "up"
            (featEnabled sel FeatureTag.entropy)
            (featEnabled sel FeatureTag.interval)
            (featEnabled sel FeatureTag.intervalBins)
            (featEnabled sel FeatureTag.tcpLen)
            (featEnabled sel FeatureTag.tcpLenBins)
            (featEnabled sel FeatureTag.psh) := by rw [← hx]
        have hstep : ∀ (key : String) (v : ℚ),
            List.lookup key (emitDefaults "up"
              (featEnabled sel FeatureTag.entropy)
              (featEnabled sel FeatureTag.interval)
              (featEnabled sel FeatureTag.intervalBins)
              (featEnabled sel FeatureTag.tcpLen)
              (featEnabled sel FeatureTag.tcpLenBins)
              (featEnabled sel FeatureTag.psh)) = some v →
            ("up_down_ratio" : String) ≠ key →
            List.lookup key r.1 = some v := by
          intro key v hlk hne
          rw [hr1]
          simp only [List.cons_append]
          rw [lookup_cons_ne key "up_down_ratio" _ _ hne]
          rw [List.lookup_append, hx1, hlk]
          rfl
        obtain ⟨d1, d2, d3, d4, d5, d6⟩ := emitDefaults_self_lookups_up
          (featEnabled sel FeatureTag.entropy)
          (featEnabled sel FeatureTag.interval)
          (featEnabled sel FeatureTag.intervalBins)
          (featEnabled sel FeatureTag.tcpLen)
          (featEnabled sel FeatureTag.tcpLenBins)
          (featEnabled sel FeatureTag.psh)
        refine ⟨fun hf => ?_, fun hf => ?_, fun hf => ?_, fun hf => ?_,
          fun hf => ?_, fun hf => ?_⟩
        · obtain ⟨a, b, c⟩ := d1 hf
          exact ⟨hstep _ _ a (by decide), hstep _ _ b (by decide),
            hstep _ _ c (by decide)⟩
        · exact hstep _ _ (d2 hf) (by decide)
        · intro k hk
          have hudr : ∀ k ∈ initIntervalBins.map Prod.fst,
              ("up_down_ratio" : String) ≠ binKeyStr k "interval" "up" := by
            decide
          exact hstep _ _ (d3 hf k hk) (hudr k hk)
        · obtain ⟨a, b, c⟩ := d4 hf
          exact ⟨hstep _ _ a (by decide), hstep _ _ b (by decide),
            hstep _ _ c (by decide)⟩
        · intro k hk
          have hudr : ∀ k ∈ initLenBins.map Prod.fst,
              ("up_down_ratio" : String) ≠ binKeyStr k "len" "up" := by
            decide
          exact hstep _ _ (d5 hf k hk) (hudr k hk)
        · exact hstep _ _ (d6 hf) (by decide)
      · intro h0
        rw [gwsDown, if_neg (by omega)] at hdn
        injection hdn with hy
        have hy1 : y.1 = emitDefaults "down"
            (featEnabled sel FeatureTag.entropy)
            (featEnabled sel FeatureTag.interval)
            (featEnabled sel FeatureTag.intervalBins)
            (featEnabled sel FeatureTag.tcpLen)
            (featEnabled sel FeatureTag.tcpLenBins)
            (featEnabled sel FeatureTag.psh) := by rw [← hy]
        have hstepD : ∀ (key : String) (v : ℚ), key ∈ downKeysList →
            List.lookup key (emitDefaults "down"
              (featEnabled sel FeatureTag.entropy)
              (featEnabled sel FeatureTag.interval)
              (featEnabled sel FeatureTag.intervalBins)
              (featEnabled sel FeatureTag.tcpLen)
              (featEnabled sel FeatureTag.tcpLenBins)
              (featEnabled sel FeatureTag.psh)) = some v →
            List.lookup key r.1 = some v := by
          intro key v hkm hlk
          obtain ⟨hne, hf1, hf2, hf3⟩ := downKeys_foreign key hkm
          have hxnone := gwsUp_lookup_foreign_none be
            (featEnabled sel FeatureTag.entropy)
            (featEnabled sel FeatureTag.interval)
            (featEnabled sel FeatureTag.intervalBins)
            (featEnabled sel FeatureTag.tcpLen)
            (featEnabled sel FeatureTag.tcpLenBins)
            (featEnabled sel FeatureTag.psh) (packetsUp clients win) x
            key hup hf1 hf2 hf3
          rw [hr1]
          simp only [List.cons_append]
          rw [lookup_cons_ne key "up_down_ratio" _ _ hne]
          rw [List.lookup_append, hxnone, hy1, hlk]
          rfl
        obtain ⟨d1, d2, d3, d4, d5, d6⟩ := emitDefaults_self_lookups_down
          (featEnabled sel FeatureTag.entropy)
          (featEnabled sel FeatureTag.interval)
          (featEnabled sel FeatureTag.intervalBins)
          (featEnabled sel FeatureTag.tcpLen)
          (featEnabled sel FeatureTag.tcpLenBins)
          (featEnabled sel FeatureTag.psh)
        refine ⟨fun hf => ?_, fun hf => ?_, fun hf => ?_, fun hf => ?_,
          fun hf => ?_, fun hf => ?_⟩
        · obtain ⟨a, b, c⟩ := d1 hf
          exact ⟨hstepD _ _ (by decide) a, hstepD _ _ (by decide) b,
            hstepD _ _ (by decide) c⟩
        · exact hstepD _ _ (by decide) (d2 hf)
        · intro k hk
          have hmem : ∀ k ∈ initIntervalBins.map Prod.fst,
              binKeyStr k "interval" "down" ∈ downKeysList := by decide
          exact hstepD _ _ (hmem k hk) (d3 hf k hk)
        · obtain ⟨a, b, c⟩ := d4 hf
          exact ⟨hstepD _ _ (by decide) a, hstepD _ _ (by decide) b,
            hstepD _ _ (by decide) c⟩
        · intro k hk
          have hmem : ∀ k ∈ initLenBins.map Prod.fst,
              binKeyStr k "len" "down" ∈ downKeysList := by decide
          exact hstepD _ _ (hmem k hk) (d5 hf k hk)
        · exact hstepD _ _ (by decide) (d6 hf)

/-- Counterexample to C5 as stated: the window with one downstream TCP
packet has fewer than 2 downstream packets, yet the emitted
top1_tcp_len_down is the tallied 3 rather than the default 0 — the
downstream direction only defaults when it is empty. -/
theorem get_window_stats_defaults_claim_false :
    (packetsDown ceClients [ceDownPkt]).length < 2 ∧
    List.lookup "top1_tcp_len_down"
      (gwsStats (get_window_stats (fun _ => 0) [ceDownPkt] ceClients
        (some [FeatureTag.entropy, FeatureTag.tcpLen]))) = some 3 ∧
    some (3 : ℚ) ≠ some (0 : ℚ) := by
  refine ⟨by decide, ?_, by decide⟩
  rw [gws_eval_down1]
  decide

/-- Witness for the amended C5: on the one-downstream-packet window the
upstream direction has at most one packet and all enabled upstream
features take their defaults. -/
theorem get_window_stats_direction_defaults_witness :
    (packetsUp ceClients [ceDownPkt]).length ≤ 1 ∧
    defaultLookupsUp (some [FeatureTag.entropy, FeatureTag.tcpLen])
      gwsEvalRes.1 :=
  ⟨by decide,
   (get_window_stats_direction_defaults (fun _ => 0) [ceDownPkt] ceClients
      (some [FeatureTag.entropy, FeatureTag.tcpLen]) gwsEvalRes
      gws_eval_down1 rfl).1 (by decide)⟩

/-- length_clustering.py line 28: the valid TLS modes. -/
def TLS_MODES : List String := ["all", "only", "none"]

/-- Lines 195-197: the local tls_mode variable — the keyword argument
defaulted to guess, and reset to guess when invalid. -/
def lcLocalMode (tlsModeArg : Option String) : String :=
  if tlsModeArg.getD "guess" ∈ TLS_MODES then tlsModeArg.getD "guess"
  else "guess"

/-- Lines 200-210: guessing writes self._tls_mode from the proportion of
TLS-bearing positive traces — only when more than 95 percent bear TLS,
none when fewer than 5 percent do, all otherwise. Division by the trace
count raises ZeroDivisionError on an empty corpus. -/
def lcGuessDecision (ptTraces : List Packet) : Except String String :=
  if ptTraces.length = 0 then .error "ZeroDivisionError: division by zero"
  else if ((ptTraces.filter (fun t => t.tls_info.isSome)).length : ℚ) /
      (ptTraces.length : ℚ) > 95 / 100 then .ok "only"
  else if ((ptTraces.filter (fun t => t.tls_info.isSome)).length : ℚ) /
      (ptTraces.length : ℚ) < 5 / 100 then .ok "none"
  else .ok "all"

/-- The state after the TLS phase of run_strategy: self._tls_mode and the
two trace sets. -/
structure LCModeResult where
  tls_mode : String
  pt_traces : List Packet
  neg_traces : List Packet
deriving DecidableEq, Repr

/-- length_clustering.py run_strategy lines 195-223: decide
self._tls_mode (guessing when the argument is absent or invalid), then
filter the positive and negative trace sets. The filter branch of lines
214-223 tests the LOCAL tls_mode variable, not the decided
self._tls_mode: after a guess the local variable still holds "guess", so
neither filter applies. -/
def lcRunStrategyTlsPhase (tlsModeArg : Option String)
    (ptTraces negTraces : List Packet) : Except String LCModeResult :=
  (if lcLocalMode tlsModeArg = "guess" then lcGuessDecision ptTraces
   else .ok (lcLocalMode tlsModeArg)).bind (fun selfMode =>
    if lcLocalMode tlsModeArg = "only" then
      .ok ⟨selfMode, ptTraces.filter (fun t => t.tls_info.isSome),
           negTraces.filter (fun t => t.tls_info.isSome)⟩
    else if lcLocalMode tlsModeArg = "none" then
      .ok ⟨selfMode, ptTraces.filter (fun t => t.tls_info.isNone),
           negTraces.filter (fun t => t.tls_info.isNone)⟩
    else .ok ⟨selfMode, ptTraces, negTraces⟩)

/-- A TLS-bearing positive packet. -/
def ceTlsPktA : Packet := mkTcpPacket 0 "10.0.0.1" "8.8.8.8" [1] 1 true

/-- A second TLS-bearing positive packet. -/
def ceTlsPktB : Packet := mkTcpPacket 1 "10.0.0.1" "8.8.8.8" [2] 2 true

/-- C4 (code bug): with tls_mode omitted, a fully TLS positive corpus
makes guessing decide "only", yet both trace sets pass through
unfiltered, because the filter branch tests the local tls_mode variable
(still "guess") instead of the decided self._tls_mode — the non-TLS
negative packet survives although applying the decided mode would remove
it. -/
theorem lcRunStrategyTlsPhase_guess_unfiltered :
    lcRunStrategyTlsPhase none [ceTlsPktA, ceTlsPktB] [ceDownPkt] =
      .ok ⟨"only", [ceTlsPktA, ceTlsPktB], [ceDownPkt]⟩ ∧
    List.filter (fun t => t.tls_info.isSome) [ceDownPkt] = [] ∧
    ceDownPkt.tls_info = none := by
  refine ⟨?_, rfl, rfl⟩
  rw [lcRunStrategyTlsPhase]
  rw [show lcLocalMode none = "guess" from rfl]
  rw [if_pos rfl]
  rw [lcGuessDecision]
  rw [if_neg (by decide)]
  rw [show ([ceTlsPktA, ceTlsPktB].filter
      (fun t => t.tls_info.isSome)).length = 2 from rfl]
  rw [show ([ceTlsPktA, ceTlsPktB] : List Packet).length = 2 from rfl]
  rw [if_pos (by norm_num)]
  simp only [Except.bind]
  rw [if_neg (by decide), if_neg (by decide)]

/-- positive_run lines 101-105: the counting loop over positive traces.
Accessing trace tcp_info payload on a non-TCP trace raises TypeError.
The increment of the top-two counter sits INSIDE the top-cluster branch,
so it only fires for lengths already in the top cluster. -/
def lcCount (top topTwo : List ℕ) :
    List Packet → ℕ × ℕ → Except String (ℕ × ℕ)
  | [], acc => .ok acc
  | p :: rest, acc =>
    match p.tcp_info with
    | none => .error "TypeError: NoneType object is not subscriptable"
    | some t =>
      lcCount top topTwo rest
        (if t.payload.length ∈ top then
           (acc.1 + 1, if t.payload.length ∈ topTwo then acc.2 + 1
            else acc.2)
         else acc)

/-- positive_run lines 97-112: take the top cluster and the union of the
top two clusters from the MeanShift output (IndexError when fewer than
two clusters exist), run the counting loop, and record
TPR(bw,1) and TPR(bw,2) as the counts over the corpus size. -/
def lcPositiveRun (mostFrequent : List (List ℕ))
    (ptTraces : List Packet) : Except String (ℚ × ℚ) :=
  match mostFrequent with
  | top :: second :: _ =>
    if ptTraces.length = 0 then
      .error "ZeroDivisionError: division by zero"
    else
      (lcCount top (top ++ second) ptTraces (0, 0)).map (fun c =>
        ((c.1 : ℚ) / (ptTraces.length : ℚ),
         (c.2 : ℚ) / (ptTraces.length : ℚ)))
  | _ => .error "IndexError: list index out of range"

/-- The TPR for k = 2 as the claim states it: the fraction of positive
packets whose TCP payload length lies in the union of the two most
populous clusters. -/
def lcClaimTpr2 (top second : List ℕ) (ptTraces : List Packet) : ℚ :=
  ((ptTraces.filter (fun p =>
      match p.tcp_info with
      | some t => decide (t.payload.length ∈ top ++ second)
      | none => false)).length : ℚ) / (ptTraces.length : ℚ)

/-- A positive packet of TCP payload length 5. -/
def cePkt5a : Packet :=
  mkTcpPacket 0 "10.0.0.1" "8.8.8.8" (List.replicate 5 1) 1 false

/-- A second positive packet of TCP payload length 5. -/
def cePkt5b : Packet :=
  mkTcpPacket 1 "10.0.0.1" "8.8.8.8" (List.replicate 5 2) 2 false

/-- A positive packet of TCP payload length 50. -/
def cePkt50 : Packet :=
  mkTcpPacket 2 "10.0.0.1" "8.8.8.8" (List.replicate 50 3) 3 false

/-- C2 (code bug): on a corpus of payload lengths 5, 5, 50 with clusters
(5) and (50), the recorded TPR for k = 2 is 2/3 — only top-cluster
members are counted, because the top-two increment is nested inside the
top-cluster branch of lines 102-105 — while the claimed union fraction
is 1. -/
theorem lcPositiveRun_topTwo_undercount :
    lcPositiveRun [[5], [50]] [cePkt5a, cePkt5b, cePkt50] =
      .ok (2 / 3, 2 / 3) ∧
    lcClaimTpr2 [5] [50] [cePkt5a, cePkt5b, cePkt50] = 1 ∧
    (2 / 3 : ℚ) ≠ 1 := by
  refine ⟨?_, ?_, by norm_num⟩
  · rw [lcPositiveRun]
    rw [if_neg (by decide)]
    rw [show lcCount [5] ([5] ++ [50]) [cePkt5a, cePkt5b, cePkt50]
      (0, 0) = .ok (2, 2) from rfl]
    simp only [Except.map]
    rw [show ([cePkt5a, cePkt5b, cePkt50] : List Packet).length = 3 from
      rfl]
    norm_num
  · rw [lcClaimTpr2]
    rw [show ([cePkt5a, cePkt5b, cePkt50].filter (fun p =>
        match p.tcp_info with
        | some t => decide (t.payload.length ∈ [5] ++ [50])
        | none => false)).length = 3 from rfl]
    rw [show ([cePkt5a, cePkt5b, cePkt50] : List Packet).length = 3 from
      rfl]
    norm_num

/-- sdg.py line 35: the swept occurrence-threshold percentiles. -/
def sdgPercentiles : List ℚ := [0, 50, 75, 80, 85, 90]

/-- defaultdict(int) read: a missing IP counts 0. -/
def occGet (d : List (String × ℕ)) (ip : String) : ℕ :=
  (d.lookup ip).getD 0

/-- defaultdict(int) increment, preserving insertion order of keys. -/
def occBump (d : List (String × ℕ)) (ip : String) : List (String × ℕ) :=
  match d with
  | [] => [(ip, 1)]
  | (k, v) :: rest =>
    if k = ip then (k, v + 1) :: rest else (k, v) :: occBump rest ip

/-- test_validation_split lines 75-79: each split call counts EVERY IP of
its reassembled rows (positive then negative, test and validation alike,
independent of any prediction) into self._target_ip_occurrences, which is
never reset, so the counts accumulate across splits. -/
def targetIpOccurrences (allIpsPerSplit : List (List String)) :
    List (String × ℕ) :=
  allIpsPerSplit.foldl (fun d ips => ips.foldl occBump d) []

/-- Linear-interpolation percentile lookup on an ascending list at
fractional index h, as np.percentile interpolates. -/
def percAt (s : List ℚ) (h : ℚ) : ℚ :=
  s.getD ⌊h⌋.toNat 0 +
    (h - (⌊h⌋ : ℚ)) *
      (s.getD (⌊h⌋.toNat + 1) (s.getD ⌊h⌋.toNat 0) - s.getD ⌊h⌋.toNat 0)

/-- np.percentile with the default linear interpolation: sort, then read
the fractional index q(n-1)/100. -/
def npPercentile (values : List ℚ) (q : ℚ) : ℚ :=
  percAt (values.mergeSort (fun a b => decide (a ≤ b)))
    (q * ((values.length : ℚ) - 1) / 100)

/-- sdg.py line 356: the decision threshold is the floor of the
percentile of the accumulated _target_ip_occurrences counts. -/
def sdgDecisionThreshold (d : List (String × ℕ)) (pct : ℚ) : ℤ :=
  ⌊npPercentile (d.map (fun kv => (kv.2 : ℚ))) pct⌋

/-- One row of the validation set: the window's target IP, its true
label, and the classifier's prediction. -/
structure SDGRow where
  ip : String
  label : ℕ
  pred : ℕ
deriving DecidableEq, Repr

/-- The loop state of positive_run lines 114-150, with everBlocked
recording every IP for which decide_to_block was ever true. -/
structure SDGLoopState where
  ip_occurrences : List (String × ℕ)
  negative_blocked_ips : List String
  everBlocked : List String
  true_positives : ℕ
  false_positives : ℕ
  true_negatives : ℕ
  false_negatives : ℕ
deriving Repr

def initSDGLoopState : SDGLoopState :=
  { ip_occurrences := [], negative_blocked_ips := [], everBlocked := [],
    true_positives := 0, false_positives := 0, true_negatives := 0,
    false_negatives := 0 }

/-- positive_run lines 122-150: one validation row. On a positive
prediction the row IP's running occurrence count is incremented and
decide_to_block is set iff it now exceeds the decision threshold; the
confusion counters and the blocked-IP set follow the label and the
decision. -/
def sdgValidationStep (θ : ℤ) (s : SDGLoopState) (row : SDGRow) :
    SDGLoopState :=
  if row.pred = 1 then
    if row.label = 1 then
      if θ < (occGet (occBump s.ip_occurrences row.ip) row.ip : ℤ) then
        { s with ip_occurrences := occBump s.ip_occurrences row.ip,
                 everBlocked := listInsert s.everBlocked row.ip,
                 true_positives := s.true_positives + 1 }
      else
        { s with ip_occurrences := occBump s.ip_occurrences row.ip,
                 false_negatives := s.false_negatives + 1 }
    else
      if θ < (occGet (occBump s.ip_occurrences row.ip) row.ip : ℤ) then
        { s with ip_occurrences := occBump s.ip_occurrences row.ip,
                 everBlocked := listInsert s.everBlocked row.ip,
                 negative_blocked_ips :=
                   listInsert s.negative_blocked_ips row.ip,
                 false_positives := s.false_positives + 1 }
      else
        { s with ip_occurrences := occBump s.ip_occurrences row.ip,
                 true_negatives := s.true_negatives + 1 }
  else
    if row.label = 0 then
      { s with true_negatives := s.true_negatives + 1 }
    else
      { s with false_negatives := s.false_negatives + 1 }

/-- The validation loop of positive_run over all rows. -/
def sdgValidationRun (θ : ℤ) (rows : List SDGRow) : SDGLoopState :=
  rows.foldl (sdgValidationStep θ) initSDGLoopState

/-- The per-peer-IP counts of positive predictions on the validation set
— the counts the claim says the threshold percentile is taken over. -/
def validationPositiveCounts (rows : List SDGRow) : List (String × ℕ) :=
  (rows.filter (fun r => r.pred = 1)).foldl (fun d r => occBump d r.ip) []

/-- The claim's reading of the threshold: the floor of the percentile of
the validation positive-prediction counts. -/
def sdgClaimThreshold (rows : List SDGRow) (pct : ℚ) : ℤ :=
  ⌊npPercentile ((validationPositiveCounts rows).map
      (fun kv => (kv.2 : ℚ))) pct⌋

theorem occGet_bump_self (d : List (String × ℕ)) (ip : String) :
    occGet (occBump d ip) ip = occGet d ip + 1 := by
  induction d with
  | nil => simp [occBump, occGet, List.lookup_cons]
  | cons kv rest ih =>
    obtain ⟨k, v⟩ := kv
    rw [occBump]
    by_cases hk : k = ip
    · subst hk
      rw [if_pos rfl]
      simp [occGet, List.lookup_cons]
    · rw [if_neg hk]
      have hbeq : (ip == k) = false := by
        simp only [beq_eq_false_iff_ne, ne_eq]
        exact fun hcon => hk hcon.symm
      simp only [occGet, List.lookup_cons, hbeq]
      exact ih

theorem occGet_bump_ne (d : List (String × ℕ)) (ip j : String)
    (h : j ≠ ip) : occGet (occBump d ip) j = occGet d j := by
  have hbeqip : (j == ip) = false := by simpa using h
  induction d with
  | nil => simp [occBump, occGet, List.lookup_cons, hbeqip]
  | cons kv rest ih =>
    obtain ⟨k, v⟩ := kv
    rw [occBump]
    by_cases hk : k = ip
    · subst hk
      rw [if_pos rfl]
      simp [occGet, List.lookup_cons, hbeqip]
    · rw [if_neg hk]
      by_cases hjk : j = k
      · subst hjk
        simp [occGet, List.lookup_cons]
      · have hbeqk : (j == k) = false := by simpa using hjk
        simp only [occGet, List.lookup_cons, hbeqk]
        exact ih

theorem mem_listInsert (l : List String) (x j : String) :
    j ∈ listInsert l x ↔ j ∈ l ∨ j = x := by
  rw [listInsert]
  by_cases hx : x ∈ l
  · rw [if_pos hx]
    constructor
    · exact Or.inl
    · rintro (h | h)
      · exact h
      · exact h ▸ hx
  · rw [if_neg hx]
    simp

theorem sdgValidationStep_occ (θ : ℤ) (s : SDGLoopState) (row : SDGRow) :
    (sdgValidationStep θ s row).ip_occurrences =
    if row.pred = 1 then occBump s.ip_occurrences row.ip
    else s.ip_occurrences := by
  rw [sdgValidationStep]
  by_cases hp : row.pred = 1
  · rw [if_pos hp, if_pos hp]
    split_ifs <;> rfl
  · rw [if_neg hp, if_neg hp]
    split_ifs <;> rfl

theorem sdgValidationStep_everBlocked (θ : ℤ) (s : SDGLoopState)
    (row : SDGRow) :
    (sdgValidationStep θ s row).everBlocked =
    if row.pred = 1 ∧
        θ < (occGet (occBump s.ip_occurrences row.ip) row.ip : ℤ) then
      listInsert s.everBlocked row.ip
    else s.everBlocked := by
  by_cases hp : row.pred = 1 <;>
  by_cases hb : θ < (occGet (occBump s.ip_occurrences row.ip) row.ip : ℤ)
    <;>
  by_cases hl : row.label = 1 <;> by_cases hl0 : row.label = 0 <;>
  simp [sdgValidationStep, hp, hb, hl, hl0]

theorem sdgValidationStep_inv (θ : ℤ) (s : SDGLoopState) (row : SDGRow)
    (hInv : ∀ j, j ∈ s.everBlocked ↔
      θ < (occGet s.ip_occurrences j : ℤ)) :
    ∀ j, j ∈ (sdgValidationStep θ s row).everBlocked ↔
      θ < (occGet (sdgValidationStep θ s row).ip_occurrences j : ℤ) := by
  intro j
  rw [sdgValidationStep_everBlocked, sdgValidationStep_occ]
  by_cases hp : row.pred = 1
  · rw [if_pos hp]
    by_cases hb : θ < (occGet (occBump s.ip_occurrences row.ip) row.ip : ℤ)
    · have hcond : row.pred = 1 ∧
          θ < (occGet (occBump s.ip_occurrences row.ip) row.ip : ℤ) :=
        ⟨hp, hb⟩
      rw [if_pos hcond, mem_listInsert]
      by_cases hj : j = row.ip
      · subst hj
        simp [hb]
      · rw [occGet_bump_ne s.ip_occurrences row.ip j hj]
        simp [hj, hInv j]
    · have hncond : ¬(row.pred = 1 ∧
          θ < (occGet (occBump s.ip_occurrences row.ip) row.ip : ℤ)) :=
        fun hc => hb hc.2
      rw [if_neg hncond]
      by_cases hj : j = row.ip
      · subst hj
        rw [hInv row.ip]
        have hmono : (occGet s.ip_occurrences row.ip : ℤ) ≤
            (occGet (occBump s.ip_occurrences row.ip) row.ip : ℤ) := by
          rw [occGet_bump_self]
          push_cast
          omega
        constructor
        · intro h
          exact lt_of_lt_of_le h hmono
        · intro h
          exact absurd h hb
      · rw [occGet_bump_ne s.ip_occurrences row.ip j hj]
        exact hInv j
  · have hncond : ¬(row.pred = 1 ∧
        θ < (occGet (occBump s.ip_occurrences row.ip) row.ip : ℤ)) :=
      fun hc => hp hc.1
    rw [if_neg hncond, if_neg hp]
    exact hInv j

theorem sdgValidationStep_count (θ : ℤ) (s : SDGLoopState) (row : SDGRow)
    (j : String) :
    occGet (sdgValidationStep θ s row).ip_occurrences j =
    occGet s.ip_occurrences j +
      (if row.pred = 1 ∧ row.ip = j then 1 else 0) := by
  rw [sdgValidationStep_occ]
  by_cases hp : row.pred = 1
  · rw [if_pos hp]
    by_cases hj : row.ip = j
    · subst hj
      rw [occGet_bump_self]
      simp [hp]
    · rw [occGet_bump_ne s.ip_occurrences row.ip j
        (fun hc => hj hc.symm)]
      simp [hp, hj]
  · rw [if_neg hp]
    simp [hp]

theorem sdgValidationRun_inv (θ : ℤ) :
    ∀ (rows : List SDGRow) (s : SDGLoopState),
    (∀ j, j ∈ s.everBlocked ↔ θ < (occGet s.ip_occurrences j : ℤ)) →
    ∀ j, (j ∈ (rows.foldl (sdgValidationStep θ) s).everBlocked ↔
        θ < (occGet (rows.foldl (sdgValidationStep θ) s).ip_occurrences j
          : ℤ)) ∧
      occGet (rows.foldl (sdgValidationStep θ) s).ip_occurrences j =
        occGet s.ip_occurrences j +
          (rows.filter (fun r => r.pred = 1 ∧ r.ip = j)).length := by
  intro rows
  induction rows with
  | nil =>
    intro s hInv j
    exact ⟨hInv j, by simp⟩
  | cons row rest ih =>
    intro s hInv j
    rw [List.foldl_cons]
    obtain ⟨h1, h2⟩ := ih (sdgValidationStep θ s row)
      (sdgValidationStep_inv θ s row hInv) j
    refine ⟨h1, ?_⟩
    rw [h2, sdgValidationStep_count θ s row j, List.filter_cons]
    by_cases hc : row.pred = 1 ∧ row.ip = j
    · have hd : decide (row.pred = 1 ∧ row.ip = j) = true := by
        simpa using hc
      rw [hd, if_pos rfl, if_pos hc]
      simp only [List.length_cons]
      omega
    · have hd : decide (row.pred = 1 ∧ row.ip = j) = false := by
        simpa using hc
      rw [hd, if_neg hc]
      simp only [Bool.false_eq_true, if_false]
      omega

/-- C3 (amended): for each swept percentile the decision threshold is
θ = ⌊percentile(counts, P)⌋ where the counts are the ACCUMULATED
per-row-IP tallies of self._target_ip_occurrences — every test and
validation row of every split so far, independent of any prediction —
not the validation positive-prediction counts; with that (nonnegative)
θ, the validation loop ever decides to block an IP iff its count of
positive predictions on the validation rows exceeds θ, and its final
loop occurrence count equals exactly that count. -/
theorem sdg_threshold_blocking (splits : List (List String)) (pct : ℚ)
    (hpct : pct ∈ sdgPercentiles) (rows : List SDGRow) (ip : String)
    (hθ : 0 ≤ sdgDecisionThreshold (targetIpOccurrences splits) pct) :
    (ip ∈ (sdgValidationRun
        (sdgDecisionThreshold (targetIpOccurrences splits) pct)
        rows).everBlocked ↔
      sdgDecisionThreshold (targetIpOccurrences splits) pct <
        ((rows.filter (fun r => r.pred = 1 ∧ r.ip = ip)).length : ℤ)) ∧
    occGet (sdgValidationRun
        (sdgDecisionThreshold (targetIpOccurrences splits) pct)
        rows).ip_occurrences ip =
      (rows.filter (fun r => r.pred = 1 ∧ r.ip = ip)).length := by
  have hinit : ∀ j, j ∈ initSDGLoopState.everBlocked ↔
      sdgDecisionThreshold (targetIpOccurrences splits) pct <
        (occGet initSDGLoopState.ip_occurrences j : ℤ) := by
    intro j
    simp only [initSDGLoopState, occGet, List.lookup_nil,
      Option.getD_none, List.not_mem_nil, false_iff, Nat.cast_zero]
    omega
  obtain ⟨h1, h2⟩ := sdgValidationRun_inv
    (sdgDecisionThreshold (targetIpOccurrences splits) pct) rows
    initSDGLoopState hinit ip
  have hz : occGet initSDGLoopState.ip_occurrences ip = 0 := rfl
  rw [hz, Nat.zero_add] at h2
  constructor
  · rw [sdgValidationRun, h1, h2]
  · rw [sdgValidationRun, h2]

theorem sdg_eval_theta :
    sdgDecisionThreshold (targetIpOccurrences [["A", "A", "B", "B"]]) 0 =
      2 := by
  have h1 : targetIpOccurrences [["A", "A", "B", "B"]] =
      [("A", 2), ("B", 2)] := rfl
  rw [sdgDecisionThreshold, h1]
  have h2 : ([("A", 2), ("B", 2)] : List (String × ℕ)).map
      (fun kv => (kv.2 : ℚ)) = [(2 : ℚ), 2] := by norm_num
  rw [h2, npPercentile]
  have hsort : ([(2 : ℚ), 2]).mergeSort (fun a b => decide (a ≤ b)) =
      [(2 : ℚ), 2] := List.mergeSort_of_sorted (by norm_num)
  rw [hsort]
  have hh : (0 : ℚ) * ((([(2 : ℚ), 2].length : ℕ) : ℚ) - 1) / 100 = 0 := by
    norm_num
  rw [hh, percAt]
  norm_num [List.getD]

theorem sdg_eval_claim :
    sdgClaimThreshold [⟨"A", 1, 1⟩, ⟨"B", 0, 0⟩] 0 = 1 := by
  have h1 : validationPositiveCounts [⟨"A", 1, 1⟩, ⟨"B", 0, 0⟩] =
      [("A", 1)] := rfl
  rw [sdgClaimThreshold, h1]
  have h2 : ([("A", 1)] : List (String × ℕ)).map
      (fun kv => (kv.2 : ℚ)) = [(1 : ℚ)] := by norm_num
  rw [h2, npPercentile]
  have hsort : ([(1 : ℚ)]).mergeSort (fun a b => decide (a ≤ b)) =
      [(1 : ℚ)] := List.mergeSort_of_sorted (by norm_num)
  rw [hsort]
  have hh : (0 : ℚ) * ((([(1 : ℚ)].length : ℕ) : ℚ) - 1) / 100 = 0 := by
    norm_num
  rw [hh, percAt]
  norm_num [List.getD]

/-- Counterexample to C3 as stated: after one split whose rows carry the
IPs A, A, B, B, the code's threshold at the 0th swept percentile is 2,
taken over the accumulated per-row IP counts — while the claim's counts,
the positive predictions on the validation rows (A predicted 1, B
predicted 0), put it at 1. -/
theorem sdg_threshold_claim_false :
    sdgDecisionThreshold (targetIpOccurrences [["A", "A", "B", "B"]]) 0 =
      2 ∧
    sdgClaimThreshold [⟨"A", 1, 1⟩, ⟨"B", 0, 0⟩] 0 = 1 ∧
    (2 : ℤ) ≠ 1 :=
  ⟨sdg_eval_theta, sdg_eval_claim, by decide⟩

/-- Witness for the amended C3: with one accumulated split A, A, B, B
and validation rows A (predicted 1) and B (predicted 0), the 0th
percentile sits in the sweep, the threshold is nonnegative, and the
blocking characterisation holds for the IP A. -/
theorem sdg_threshold_blocking_witness :
    (0 : ℚ) ∈ sdgPercentiles ∧
    0 ≤ sdgDecisionThreshold (targetIpOccurrences [["A", "A", "B", "B"]])
        0 ∧
    (("A" ∈ (sdgValidationRun
        (sdgDecisionThreshold (targetIpOccurrences [["A", "A", "B", "B"]])
          0) [⟨"A", 1, 1⟩, ⟨"B", 0, 0⟩]).everBlocked ↔
      sdgDecisionThreshold (targetIpOccurrences [["A", "A", "B", "B"]])
          0 <
        ((([⟨"A", 1, 1⟩, ⟨"B", 0, 0⟩] : List SDGRow).filter
          (fun r => r.pred = 1 ∧ r.ip = "A")).length : ℤ)) ∧
     occGet (sdgValidationRun
        (sdgDecisionThreshold (targetIpOccurrences [["A", "A", "B", "B"]])
          0) [⟨"A", 1, 1⟩, ⟨"B", 0, 0⟩]).ip_occurrences "A" =
      (([⟨"A", 1, 1⟩, ⟨"B", 0, 0⟩] : List SDGRow).filter
        (fun r => r.pred = 1 ∧ r.ip = "A")).length) :=
  ⟨by decide, by rw [sdg_eval_theta]; decide,
   sdg_threshold_blocking [["A", "A", "B", "B"]] 0 (by decide)
     [⟨"A", 1, 1⟩, ⟨"B", 0, 0⟩] "A" (by rw [sdg_eval_theta]; decide)⟩

/-- An entropy-distribution configuration: byte block size, p-value
threshold, and test voting criterion. -/
abbrev EConfig := ℕ × ℚ × ℕ

/-- entropy_dist.py line 26: the voting criteria swept. -/
def CRITERIA : List ℕ := [3, 2, 1]

/-- Python min over a nonempty list of naturals. -/
def listMinN : List ℕ → ℕ
  | [] => 0
  | x :: xs => xs.foldl min x

/-- Dict read of a configuration's measured rate. -/
def lookupRate (m : List (EConfig × ℚ)) (c : EConfig) : ℚ :=
  (m.lookup c).getD 0

/-- entropy_dist.py lines 76-90 config_specific_penalisation: 10 percent
for each statistical test required beyond the minimum criterion, 0 for a
configuration without recorded TPR. -/
def config_specific_penalisation (tps : List (EConfig × ℚ))
    (c : EConfig) : ℚ :=
  if c ∈ tps.map Prod.fst then
    (1 / 10) * max 0 ((c.2.2 : ℚ) - ((listMinN CRITERIA : ℕ) : ℚ))
  else 0

/-- Line 294: best_true_positives[0] — the head of the stable descending
sort of the TPR items by value. -/
def entropyBestTpConfig (tps : List (EConfig × ℚ)) : Option EConfig :=
  ((tps.mergeSort (fun a b => decide (b.2 ≤ a.2))).head?).map Prod.fst

/-- Line 295: best_false_positives[0] — the head of the stable ascending
sort of the FPR items by value. -/
def entropyBestFpConfig (fps : List (EConfig × ℚ)) : Option EConfig :=
  ((fps.mergeSort (fun a b => decide (a.2 ≤ b.2))).head?).map Prod.fst

/-- Line 302: the true-positive closeness score of a configuration,
parameterised by the log1p kernel lg. -/
def entropyScoreTp (lg : ℚ → ℚ) (tps : List (EConfig × ℚ))
    (bt c : EConfig) : ℚ :=
  lg 100 - lg (|lookupRate tps bt - lookupRate tps c| * 100)

/-- Line 303: the false-positive closeness score — the reference term
reads tps[best_false_positive], the TPR of the lowest-FPR configuration,
as the source does. -/
def entropyScoreFp (lg : ℚ → ℚ) (tps fps : List (EConfig × ℚ))
    (bf c : EConfig) : ℚ :=
  lg 100 - lg (|lookupRate tps bf - lookupRate fps c| * 100)

/-- Line 305: the weighted average of the two scores with
FALSE_POSITIVE_SCORE_WEIGHT = 0.5; no penalisation enters here. -/
def entropyAvgScore (lg : ℚ → ℚ) (tps fps : List (EConfig × ℚ))
    (bt bf c : EConfig) : ℚ :=
  entropyScoreTp lg tps bt c * (1 - 1 / 2) +
    entropyScoreFp lg tps fps bf c * (1 / 2)

/-- configs[average_scores.index(max(average_scores))]: the first list
element attaining the maximal score. -/
def firstMaxBy (f : EConfig → ℚ) : List EConfig → Option EConfig
  | [] => none
  | c :: rest =>
    match firstMaxBy f rest with
    | none => some c
    | some m => if f c < f m then some m else some c

/-- Line 306: the selected best configuration. -/
def entropyBestConfig (lg : ℚ → ℚ) (tps fps : List (EConfig × ℚ)) :
    Option EConfig :=
  match entropyBestTpConfig tps, entropyBestFpConfig fps with
  | some bt, some bf =>
    firstMaxBy (entropyAvgScore lg tps fps bt bf) (tps.map Prod.fst)
  | _, _ => none

/-- The claim's score_fp: the difference against the FPR of the
lowest-FPR configuration. -/
def entropyClaimScoreFp (lg : ℚ → ℚ) (fps : List (EConfig × ℚ))
    (bf c : EConfig) : ℚ :=
  lg 100 - lg (|lookupRate fps bf - lookupRate fps c| * 100)

/-- The claim's full score S(c): weighted average of score_tp and its
score_fp, minus the configuration-specific penalisation. -/
def entropyClaimScore (lg : ℚ → ℚ) (tps fps : List (EConfig × ℚ))
    (bt bf c : EConfig) : ℚ :=
  entropyScoreTp lg tps bt c * (1 - 1 / 2) +
    entropyClaimScoreFp lg fps bf c * (1 / 2) -
      config_specific_penalisation tps c

theorem firstMaxBy_eq_none (f : EConfig → ℚ) :
    ∀ l, firstMaxBy f l = none → l = [] := by
  intro l h
  cases l with
  | nil => rfl
  | cons a t =>
    rw [firstMaxBy] at h
    cases hri : firstMaxBy f t with
    | none =>
      simp only [hri] at h
      exact absurd h (by simp)
    | some m =>
      simp only [hri] at h
      by_cases hc : f a < f m
      · rw [if_pos hc] at h
        exact absurd h (by simp)
      · rw [if_neg hc] at h
        exact absurd h (by simp)

theorem firstMaxBy_spec (f : EConfig → ℚ) :
    ∀ (l : List EConfig) (m : EConfig), firstMaxBy f l = some m →
    m ∈ l ∧ ∀ x ∈ l, f x ≤ f m := by
  intro l
  induction l with
  | nil =>
    intro m h
    exact absurd h (by simp [firstMaxBy])
  | cons a t ih =>
    intro m h
    rw [firstMaxBy] at h
    cases hri : firstMaxBy f t with
    | none =>
      have ht : t = [] := firstMaxBy_eq_none f t hri
      subst ht
      simp only [hri] at h
      injection h with h
      subst h
      refine ⟨List.mem_cons_self _ _, ?_⟩
      intro x hx
      rcases List.mem_cons.mp hx with hxa | hxt
      · rw [hxa]
      · exact absurd hxt (List.not_mem_nil x)
    | some m' =>
      simp only [hri] at h
      obtain ⟨hm'mem, hm'max⟩ := ih m' hri
      by_cases hc : f a < f m'
      · rw [if_pos hc] at h
        injection h with h
        subst h
        refine ⟨List.mem_cons_of_mem a hm'mem, ?_⟩
        intro x hx
        rcases List.mem_cons.mp hx with hxa | hxt
        · rw [hxa]
          exact le_of_lt hc
        · exact hm'max x hxt
      · rw [if_neg hc] at h
        injection h with h
        subst h
        refine ⟨List.mem_cons_self a t, ?_⟩
        intro x hx
        rcases List.mem_cons.mp hx with hxa | hxt
        · rw [hxa]
        · exact le_trans (hm'max x hxt) (not_lt.mp hc)

/-- C1 (amended): whenever the entropy strategy selects a best
configuration, that configuration maximises the code's average score —
(1-w)·score_tp + w·score_fp with w = 1/2, where score_fp measures
|TPR[c*_fpr] − FPR[c]| (the TPR of the lowest-FPR configuration, as the
source reads tps[best_false_positive]) and no configuration-specific
penalisation is subtracted — over all configurations with recorded TPR,
for every log1p kernel. -/
theorem entropy_best_config_maximises_avg (lg : ℚ → ℚ)
    (tps fps : List (EConfig × ℚ)) (bt bf c : EConfig)
    (hbt : entropyBestTpConfig tps = some bt)
    (hbf : entropyBestFpConfig fps = some bf)
    (hbc : entropyBestConfig lg tps fps = some c) :
    c ∈ tps.map Prod.fst ∧
    ∀ e ∈ tps.map Prod.fst,
      entropyAvgScore lg tps fps bt bf e ≤
        entropyAvgScore lg tps fps bt bf c := by
  rw [entropyBestConfig, hbt, hbf] at hbc
  exact firstMaxBy_spec _ _ _ hbc

/-- A configuration requiring all three test agreements. -/
def ceCfgA : EConfig := (16, 0, 3)

/-- A configuration requiring a single test agreement. -/
def ceCfgB : EConfig := (16, 0, 1)

/-- A TPR table on which both configurations tie. -/
def ceTps : List (EConfig × ℚ) := [(ceCfgA, 1), (ceCfgB, 1)]

/-- An FPR table on which both configurations tie. -/
def ceFps : List (EConfig × ℚ) := [(ceCfgA, 0), (ceCfgB, 0)]

theorem entropy_eval_bt : entropyBestTpConfig ceTps = some ceCfgA := by
  rw [entropyBestTpConfig]
  rw [show ceTps.mergeSort (fun a b => decide (b.2 ≤ a.2)) = ceTps from
    List.mergeSort_of_sorted (by decide)]
  rfl

theorem entropy_eval_bf : entropyBestFpConfig ceFps = some ceCfgA := by
  rw [entropyBestFpConfig]
  rw [show ceFps.mergeSort (fun a b => decide (a.2 ≤ b.2)) = ceFps from
    List.mergeSort_of_sorted (by decide)]
  rfl

theorem entropy_eval_best :
    entropyBestConfig (fun _ => (0 : ℚ)) ceTps ceFps = some ceCfgA := by
  rw [entropyBestConfig]
  simp only [entropy_eval_bt, entropy_eval_bf]
  rw [show ceTps.map Prod.fst = [ceCfgA, ceCfgB] from rfl]
  have h1 : firstMaxBy (entropyAvgScore (fun _ => (0 : ℚ)) ceTps ceFps
      ceCfgA ceCfgA) [ceCfgB] = some ceCfgB := by
    rw [firstMaxBy]
    rfl
  rw [firstMaxBy]
  simp only [h1]
  have havgA : entropyAvgScore (fun _ => (0 : ℚ)) ceTps ceFps ceCfgA
      ceCfgA ceCfgA = 0 := by
    norm_num [entropyAvgScore, entropyScoreTp, entropyScoreFp]
  have havgB : entropyAvgScore (fun _ => (0 : ℚ)) ceTps ceFps ceCfgA
      ceCfgA ceCfgB = 0 := by
    norm_num [entropyAvgScore, entropyScoreTp, entropyScoreFp]
  rw [havgA, havgB, if_neg (lt_irrefl 0)]

/-- Counterexample to C1 as stated: with tied TPRs and FPRs, the code
selects the first configuration (three tests required), but the claim's
penalised score strictly prefers the single-test configuration — the
selection of line 306 never subtracts config_specific_penalisation. -/
theorem entropy_best_config_claim_false :
    entropyBestConfig (fun _ => (0 : ℚ)) ceTps ceFps = some ceCfgA ∧
    ceCfgB ∈ ceTps.map Prod.fst ∧
    entropyClaimScore (fun _ => (0 : ℚ)) ceTps ceFps ceCfgA ceCfgA
        ceCfgA <
      entropyClaimScore (fun _ => (0 : ℚ)) ceTps ceFps ceCfgA ceCfgA
        ceCfgB :=
  ⟨entropy_eval_best, by decide, by
    norm_num [entropyClaimScore, entropyScoreTp, entropyClaimScoreFp,
      config_specific_penalisation, ceCfgA, ceCfgB, ceTps, ceFps,
      lookupRate, listMinN, CRITERIA, List.lookup_cons]⟩

/-- Witness for the amended C1: on the tied tables the selected first
configuration indeed attains the maximal average score. -/
theorem entropy_best_config_maximises_avg_witness :
    entropyBestTpConfig ceTps = some ceCfgA ∧
    entropyBestFpConfig ceFps = some ceCfgA ∧
    (ceCfgA ∈ ceTps.map Prod.fst ∧
     ∀ e ∈ ceTps.map Prod.fst,
       entropyAvgScore (fun _ => (0 : ℚ)) ceTps ceFps ceCfgA ceCfgA e ≤
         entropyAvgScore (fun _ => (0 : ℚ)) ceTps ceFps ceCfgA ceCfgA
           ceCfgA) :=
  ⟨entropy_eval_bt, entropy_eval_bf,
   entropy_best_config_maximises_avg (fun _ => (0 : ℚ)) ceTps ceFps
     ceCfgA ceCfgA ceCfgA entropy_eval_bt entropy_eval_bf
     entropy_eval_best⟩
